import Mathlib

/-!
# Verification of the Recure graph-fusion ranking engine

Shallow embedding of the core of the Recure drug-repurposing service
(`src/data_loader.py`, `src/graph_builder.py`, `src/ranker.py`,
`src/service.py`, `src/explain.py`).

Modelling conventions:
* Python floats are modelled by exact rationals (`ℚ`).
* The numeric logarithm primitive (`math.log` applied to an integer degree,
  inside `networkx.adamic_adar_index`) is modelled as an abstract function
  `log : ℕ → ℚ` carried by the environment; all theorems hold for every such
  function, in particular for the true logarithm.
* The Embedding Provider (sentence-transformers model) is external to the
  repository core; per the spec (§6) it is modelled by an environment
  function `embed : String → Except Unit ℕ` returning an opaque embedding
  handle (`Except.error` models a raised exception) together with
  `cos : ℕ → ℕ → ℚ` for cosine similarity between two handles.
* Namespaced node keys (`"drug:<id>"`, `"dis:<id>"`, `"gene:<symbol>"`) are
  modelled by the tagged type `NodeId`; the spec's data-model invariant
  (§3, GraphNode) states these namespaces never collide, which is exactly
  the injectivity of the constructors.
* Python dicts (insertion-ordered, last write wins) are modelled by
  association lists with the `insertKV` update; Python `list.sort`
  (a stable sort) is modelled by a stable insertion sort, which is
  extensionally the unique stable sort for the comparison used.
* Exceptions are modelled by `Except Unit`; a `try/except` boundary becomes
  a `match` on the `Except` value.
-/

namespace Recure

/-! ## Data model (`data_loader.py`) -/

/-- A row of the cleaned `seed_drugs.csv` frame (free-text columns already
lower-cased by `DataLoader._clean_dataframe`). -/
structure Drug where
  drug_id : String
  drug_name : String
  atc : String
  indications_text : String
  deriving DecidableEq, Repr

/-- A row of the cleaned `seed_diseases.csv` frame. -/
structure Disease where
  disease_id : String
  disease_name : String
  synonyms : String
  deriving DecidableEq, Repr

/-- A row of `seed_drug_disease.csv`: a known (drug, disease) evidence pair. -/
structure DrugDiseaseRow where
  drug_id : String
  disease_id : String
  evidence : String
  deriving DecidableEq, Repr

/-- A row of `seed_drug_gene.csv`. -/
structure DrugGeneRow where
  drug_id : String
  gene_symbol : String
  note : String
  deriving DecidableEq, Repr

/-- The loaded Entity Store plus the external numeric/embedding primitives and
the ranker's current weights (`DrugRepurposeRanker.text_weight` /
`graph_weight`, defaults 0.6 / 0.4). -/
structure Env where
  drugs : List Drug
  diseases : List Disease
  drug_disease : List DrugDiseaseRow
  drug_gene : List DrugGeneRow
  embed : String → Except Unit Nat
  cos : Nat → Nat → ℚ
  log : Nat → ℚ
  text_weight : ℚ
  graph_weight : ℚ

/-- Python-dict insert: if the key exists, overwrite its value in place,
otherwise append at the end (dicts preserve first-insertion key order). -/
def insertKV {α : Type} (m : List (String × α)) (k : String) (v : α) :
    List (String × α) :=
  if m.any (fun p => p.1 = k) then
    m.map (fun p => if p.1 = k then (k, v) else p)
  else
    m ++ [(k, v)]

/-- Python-dict lookup. -/
def lookupKV {α : Type} (m : List (String × α)) (k : String) : Option α :=
  (m.find? (fun p => p.1 = k)).map (fun p => p.2)

/-- `DataLoader.drugs_by_id`, built by `_build_lookup_dictionaries`. -/
def drugsById (env : Env) : List (String × Drug) :=
  env.drugs.foldl (fun m d => insertKV m d.drug_id d) []

/-- `DataLoader.diseases_by_id`. -/
def diseasesById (env : Env) : List (String × Disease) :=
  env.diseases.foldl (fun m d => insertKV m d.disease_id d) []

/-- `DataLoader.diseases_by_name` (keys are the lower-cased disease names). -/
def diseasesByName (env : Env) : List (String × Disease) :=
  env.diseases.foldl (fun m d => insertKV m d.disease_name d) []

/-- `DataLoader.get_drug_by_id`. -/
def getDrugById (env : Env) (i : String) : Option Drug :=
  lookupKV (drugsById env) i

/-- `DataLoader.get_disease_by_id`. -/
def getDiseaseById (env : Env) (i : String) : Option Disease :=
  lookupKV (diseasesById env) i

/-- `DataLoader.get_drugs_for_disease`: drug ids of the evidence rows for the
disease, resolved through `get_drug_by_id`, silently dropping unresolvable
ids (the truthiness filter in the comprehension). -/
def getDrugsForDisease (env : Env) (disease_id : String) : List Drug :=
  ((env.drug_disease.filter (fun r => r.disease_id = disease_id)).map
      (fun r => r.drug_id)).filterMap (fun did => getDrugById env did)

/-- Word tokenisation used by the fuzzy matcher: Python `str.split()`
(split on whitespace runs, dropping empty pieces). -/
def splitWords (s : String) : List String :=
  (s.split Char.isWhitespace).filter (fun w => w ≠ "")

/-- Python substring test `sub in s`. -/
def strContains (s sub : String) : Bool :=
  decide (sub.toList <:+: s.toList)

/-- Jaccard word-overlap score of `DataLoader.fuzzy_match_disease`
(arguments are already deduplicated word lists, i.e. Python sets). -/
def jaccardScore (qws dws : List String) : ℚ :=
  let inter := (qws.filter (fun w => w ∈ dws)).length
  let uni := ((qws ++ dws).dedup).length
  if 0 < uni then (inter : ℚ) / (uni : ℚ) else 0

/-- `DataLoader.fuzzy_match_disease` (threshold 0.3): exact name match, then
substring containment in either direction, then best strict-improvement
word-Jaccard above the threshold, scanning names in dict order. -/
def fuzzyMatchDisease (env : Env) (query : String) : Option Disease :=
  let q := query.toLower.trim
  let m := diseasesByName env
  match m.find? (fun p => p.1 = q) with
  | some p => some p.2
  | none =>
    match m.find? (fun p => strContains p.1 q || strContains q p.1) with
    | some p => some p.2
    | none =>
      let qw := (splitWords q).dedup
      (m.foldl (fun acc p =>
        let dw := (splitWords p.1).dedup
        if (qw.filter (fun w => w ∈ dw)) ≠ [] then
          let score := jaccardScore qw dw
          if acc.1 < score ∧ (3 : ℚ)/10 ≤ score then (score, some p.2) else acc
        else acc) ((0 : ℚ), (none : Option Disease))).2

/-! ## Graph model (`graph_builder.py`)

Namespaced string node keys become the tagged type `NodeId` (spec §3: the
`drug:` / `dis:` / `gene:` namespaces never collide). The `networkx.Graph`
becomes a node list plus an undirected edge list; `add_edge` on an existing
edge overwrites its attributes, as in networkx. -/

/-- A graph node key: `"drug:<id>"`, `"dis:<id>"` or `"gene:<symbol>"`. -/
inductive NodeId where
  | drug (id : String)
  | dis (id : String)
  | gene (symbol : String)
  deriving DecidableEq, Repr

/-- Attributes attached to an edge by `graph_builder.py`. -/
structure EdgeData where
  weight : ℚ
  edge_type : String
  evidence : Option String
  note : Option String
  via_drug : Option NodeId
  deriving DecidableEq, Repr

/-- An undirected edge with its attributes. -/
abbrev Edge := NodeId × NodeId × EdgeData

/-- A simple undirected graph (as built by `GraphBuilder`). -/
structure Graph where
  nodes : List NodeId
  edges : List Edge
  deriving DecidableEq, Repr

def Graph.empty : Graph := ⟨[], []⟩

/-- Whether the (undirected) edge `e` connects `u` and `v`. -/
def edgeMatches (e : Edge) (u v : NodeId) : Bool :=
  decide ((e.1 = u ∧ e.2.1 = v) ∨ (e.1 = v ∧ e.2.1 = u))

/-- `networkx` `G.has_edge(u, v)`. -/
def Graph.hasEdge (g : Graph) (u v : NodeId) : Bool :=
  g.edges.any (fun e => edgeMatches e u v)

/-- All stored edges between `u` and `v`. -/
def edgesBetween (g : Graph) (u v : NodeId) : List Edge :=
  g.edges.filter (fun e => edgeMatches e u v)

/-- `G.add_node` (attributes are carried on the entity records instead). -/
def Graph.addNode (g : Graph) (u : NodeId) : Graph :=
  if u ∈ g.nodes then g else { nodes := g.nodes ++ [u], edges := g.edges }

/-- `G.add_edge`: ensures both endpoints exist, then overwrites the
attributes of an existing edge or appends a fresh one. -/
def Graph.addEdge (g : Graph) (u v : NodeId) (d : EdgeData) : Graph :=
  let g1 := (g.addNode u).addNode v
  if g1.hasEdge u v then
    { nodes := g1.nodes,
      edges := g1.edges.map (fun e => if edgeMatches e u v then (e.1, e.2.1, d) else e) }
  else
    { nodes := g1.nodes, edges := g1.edges ++ [(u, v, d)] }

/-- `G.neighbors(u)` (as a list of adjacent nodes). -/
def Graph.neighbors (g : Graph) (u : NodeId) : List NodeId :=
  g.nodes.filter (fun v => g.hasEdge u v)

/-- `G.degree(u)`: number of adjacent nodes (the graph is simple and the
builder creates no self-loops). -/
def Graph.degree (g : Graph) (u : NodeId) : Nat :=
  (g.neighbors u).length

/-- `networkx.common_neighbors(G, u, v)`: nodes adjacent to both `u` and
`v`, excluding `u` and `v` themselves. -/
def commonNeighbors (g : Graph) (u v : NodeId) : List NodeId :=
  g.nodes.filter (fun n =>
    g.hasEdge u n && g.hasEdge v n && decide (n ≠ u) && decide (n ≠ v))

/-- `GraphBuilder._add_drug_nodes`. -/
def addDrugNodes (g : Graph) (env : Env) : Graph :=
  env.drugs.foldl (fun g d => g.addNode (NodeId.drug d.drug_id)) g

/-- `GraphBuilder._add_disease_nodes`. -/
def addDiseaseNodes (g : Graph) (env : Env) : Graph :=
  env.diseases.foldl (fun g d => g.addNode (NodeId.dis d.disease_id)) g

/-- `GraphBuilder._add_gene_nodes` (`unique()` keeps first occurrences). -/
def addGeneNodes (g : Graph) (env : Env) : Graph :=
  ((env.drug_gene.map (fun r => r.gene_symbol)).dedup).foldl
    (fun g s => g.addNode (NodeId.gene s)) g

/-- `GraphBuilder._add_drug_disease_edges` (weight 2.0, skipped unless both
endpoints are already nodes). -/
def addDrugDiseaseEdges (g : Graph) (env : Env) : Graph :=
  env.drug_disease.foldl (fun g r =>
    let dn := NodeId.drug r.drug_id
    let sn := NodeId.dis r.disease_id
    if dn ∈ g.nodes ∧ sn ∈ g.nodes then
      g.addEdge dn sn ⟨2, "drug_disease", some r.evidence, none, none⟩
    else g) g

/-- `GraphBuilder._add_drug_gene_edges` (weight 1.0). -/
def addDrugGeneEdges (g : Graph) (env : Env) : Graph :=
  env.drug_gene.foldl (fun g r =>
    let dn := NodeId.drug r.drug_id
    let gn := NodeId.gene r.gene_symbol
    if dn ∈ g.nodes ∧ gn ∈ g.nodes then
      g.addEdge dn gn ⟨1, "drug_gene", none, some r.note, none⟩
    else g) g

/-- The `GraphBuilder.drug_nodes` set (deduplicated, insertion order). -/
def drugNodesOf (env : Env) : List NodeId :=
  (env.drugs.map (fun d => NodeId.drug d.drug_id)).dedup

/-- The attributes of a propagated disease–gene edge (weight 0.5,
annotated with the mediating drug `dn`). -/
def propEdgeData (dn : NodeId) : EdgeData :=
  ⟨1/2, "disease_gene_propagated", none, none, some dn⟩

/-- One guarded edge addition of the propagation step: add a
`disease_gene_propagated` edge unless the two nodes are already
connected. -/
def addPropagatedEdge (dn : NodeId) (g : Graph) (p : NodeId × NodeId) : Graph :=
  if g.hasEdge p.1 p.2 then g
  else g.addEdge p.1 p.2 (propEdgeData dn)

/-- The (disease-neighbour, gene-neighbour) pairs the propagation loop
visits for one drug node (both neighbour lists are collected once before
the inner loops run). -/
def propagationPairs (g : Graph) (dn : NodeId) : List (NodeId × NodeId) :=
  let diseaseNs := (g.neighbors dn).filter (fun n =>
    match n with | NodeId.dis _ => true | _ => false)
  let geneNs := (g.neighbors dn).filter (fun n =>
    match n with | NodeId.gene _ => true | _ => false)
  diseaseNs.flatMap (fun d => geneNs.map (fun ge => (d, ge)))

/-- The body of the propagation loop for one drug node. -/
def propagateForDrug (g : Graph) (dn : NodeId) : Graph :=
  (propagationPairs g dn).foldl (addPropagatedEdge dn) g

/-- `GraphBuilder._add_disease_gene_edges_by_propagation` (the Python `set`
iteration order is arbitrary; the claims proved below are order-independent). -/
def propagateDiseaseGene (g : Graph) (drugNodes : List NodeId) : Graph :=
  drugNodes.foldl propagateForDrug g

/-- The graph after nodes and direct edges are added, before propagation. -/
def preGraph (env : Env) : Graph :=
  addDrugGeneEdges
    (addDrugDiseaseEdges
      (addGeneNodes (addDiseaseNodes (addDrugNodes Graph.empty env) env) env)
      env)
    env

/-- `GraphBuilder.build_graph`. -/
def buildGraph (env : Env) : Graph :=
  propagateDiseaseGene (preGraph env) (drugNodesOf env)

/-! ## Link prediction (`GraphBuilder.compute_link_prediction_scores`) -/

/-- `networkx.adamic_adar_index`: sum over common neighbours of
`1 / log(degree n)` (no guard on the degree; `logf` is the numeric log
primitive). -/
def adamicAdar (logf : Nat → ℚ) (g : Graph) (u v : NodeId) : ℚ :=
  ((commonNeighbors g u v).map (fun n => 1 / logf (g.degree n))).sum

/-- Modelled from the spec (§4.2): the Adamic–Adar sum with the mandated
guard, where a shared neighbour of degree ≤ 1 contributes 0. Stated for
comparison against the source's unguarded `adamicAdar`. -/
def specGuardedAdamicAdar (logf : Nat → ℚ) (g : Graph) (u v : NodeId) : ℚ :=
  ((commonNeighbors g u v).map (fun n =>
    if g.degree n ≤ 1 then 0 else 1 / logf (g.degree n))).sum

/-- `GraphBuilder.compute_link_prediction_scores`: the returned Python dict
is modelled as a key-value list. Note the early return for absent nodes
carries only two keys, exactly as in the source. -/
def computeLinkPredictionScores (logf : Nat → ℚ) (g : Graph)
    (drug_id disease_id : String) : List (String × ℚ) :=
  let dn := NodeId.drug drug_id
  let sn := NodeId.dis disease_id
  if dn ∉ g.nodes ∨ sn ∉ g.nodes then
    [("adamic_adar", 0), ("common_neighbors", 0)]
  else
    let aa := adamicAdar logf g dn sn
    let cn : ℚ := ((commonNeighbors g dn sn).length : ℚ)
    let maxPossible := min (g.degree dn) (g.degree sn)
    let ncn := cn / ((max maxPossible 1 : Nat) : ℚ)
    [("adamic_adar", aa), ("common_neighbors", cn),
     ("normalized_common_neighbors", ncn)]

/-! ## Path search (`GraphBuilder.get_shortest_paths`) -/

/-- Depth-bounded enumeration of simple paths from `u` to `target` using at
most `fuel` edges (the model of `networkx.all_simple_paths` with
`cutoff = fuel`). -/
def simplePathsFrom (g : Graph) (target : NodeId) :
    Nat → NodeId → List NodeId → List (List NodeId)
  | 0, u, _ => if u = target then [[u]] else []
  | fuel + 1, u, visited =>
    if u = target then [[u]]
    else
      ((g.neighbors u).filter (fun w => decide (w ∉ visited))).flatMap
        (fun w => (simplePathsFrom g target fuel w (u :: visited)).map
          (fun p => u :: p))

/-- `networkx.all_simple_paths(G, u, v, cutoff)`. -/
def allSimplePaths (g : Graph) (u v : NodeId) (cutoff : Nat) :
    List (List NodeId) :=
  simplePathsFrom g v cutoff u []

/-- First element of minimal length. -/
def minLenPath : List (List NodeId) → Option (List NodeId)
  | [] => none
  | p :: ps =>
    match minLenPath ps with
    | none => some p
    | some q => if q.length < p.length then some q else some p

/-- `networkx.shortest_path(G, u, v)`: a minimum-hop path between `u` and
`v`; `none` models the `NetworkXNoPath` exception. -/
def shortestPath (g : Graph) (u v : NodeId) : Option (List NodeId) :=
  minLenPath (allSimplePaths g u v g.nodes.length)

/-- `GraphBuilder.get_shortest_paths` (default `max_length = 3`): absent
node or no path gives `[]`; a short enough shortest path is returned alone;
otherwise at most 3 depth-bounded simple paths. -/
def getShortestPaths (g : Graph) (drug_id disease_id : String)
    (maxLength : Nat) : List (List NodeId) :=
  let dn := NodeId.drug drug_id
  let sn := NodeId.dis disease_id
  if dn ∉ g.nodes ∨ sn ∉ g.nodes then []
  else
    match shortestPath g dn sn with
    | none => []
    | some sp =>
      if sp.length ≤ maxLength + 1 then [sp]
      else
        ((allSimplePaths g dn sn maxLength).filter
          (fun p => p.length ≤ maxLength + 1)).take 3

/-! ## Ranking engine (`ranker.py`) -/

/-- `DrugRepurposeRanker._cache_drug_embeddings`: one eager embedding per
drug with non-empty indications text, keyed by `drug_id`. (A failing embed
call would abort engine construction in Python; the engine is assumed
constructed, so failed entries cannot occur and are skipped.) -/
def drugEmbeddings (env : Env) : List (String × Nat) :=
  env.drugs.foldl (fun m d =>
    if d.indications_text ≠ "" then
      match env.embed d.indications_text with
      | Except.ok e => insertKV m d.drug_id e
      | Except.error _ => m
    else m) []

/-- `DrugRepurposeRanker._compute_text_score`: 0.0 on a cache miss (before
any provider call), otherwise the cosine similarity against the freshly
embedded `"<disease_name> <synonyms>"` text, floored at 0. -/
def computeTextScore (env : Env) (d : Drug) (dis : Disease) :
    Except Unit ℚ :=
  let diseaseText := dis.disease_name ++ " " ++ dis.synonyms
  match lookupKV (drugEmbeddings env) d.drug_id with
  | none => Except.ok 0
  | some de =>
    match env.embed diseaseText with
    | Except.error e => Except.error e
    | Except.ok qe => Except.ok (max 0 (env.cos de qe))

/-- `DrugRepurposeRanker._compute_graph_score`:
`min(1, 0.7 * min(1, adamic_adar / 2) + 0.3 * normalized_common_neighbors)`,
reading the link-prediction dict with 0.0 defaults. -/
def computeGraphScore (env : Env) (g : Graph) (drug_id disease_id : String) :
    ℚ :=
  let links := computeLinkPredictionScores env.log g drug_id disease_id
  let aa := (lookupKV links "adamic_adar").getD 0
  let naa := min 1 (aa / 2)
  let ncn := (lookupKV links "normalized_common_neighbors").getD 0
  min 1 (7/10 * naa + 3/10 * ncn)

/-- One entry of the list returned by `rank_for_disease`; the
`normalized_score` key is absent (`none`) until normalization sets it. -/
structure ScoredCandidate where
  drug_id : String
  drug_name : String
  atc : String
  indications_text : String
  score : ℚ
  text_score : ℚ
  graph_score : ℚ
  target_disease_id : String
  target_disease_name : String
  normalized_score : Option ℚ
  deriving DecidableEq, Repr

/-- The per-candidate body of the scoring loop in `rank_for_disease`. -/
def scoreCandidate (env : Env) (g : Graph) (dis : Disease) (d : Drug) :
    Except Unit ScoredCandidate :=
  match computeTextScore env d dis with
  | Except.error e => Except.error e
  | Except.ok ts =>
    let gs := computeGraphScore env g d.drug_id dis.disease_id
    Except.ok
      { drug_id := d.drug_id
        drug_name := d.drug_name
        atc := d.atc
        indications_text := d.indications_text
        score := env.text_weight * ts + env.graph_weight * gs
        text_score := ts
        graph_score := gs
        target_disease_id := dis.disease_id
        target_disease_name := dis.disease_name
        normalized_score := none }

/-- The scoring loop of `rank_for_disease`: candidates are scored in order;
an exception raised for any candidate propagates out of the loop. -/
def scoreCandidates (env : Env) (g : Graph) (dis : Disease) :
    List Drug → Except Unit (List ScoredCandidate)
  | [] => Except.ok []
  | d :: ds =>
    match scoreCandidate env g dis d with
    | Except.error e => Except.error e
    | Except.ok c =>
      match scoreCandidates env g dis ds with
      | Except.error e => Except.error e
      | Except.ok cs => Except.ok (c :: cs)

/-- The `known_drug_ids` set of `rank_for_disease`. -/
def knownDrugIds (env : Env) (disease_id : String) : List String :=
  (getDrugsForDisease env disease_id).map (fun d => d.drug_id)

/-- The `candidate_drugs` list of `rank_for_disease`: all drugs except the
known ones, with no other filtering. -/
def candidateDrugs (env : Env) (disease_id : String) : List Drug :=
  env.drugs.filter (fun d => decide (d.drug_id ∉ knownDrugIds env disease_id))

/-- Insert into a descending-sorted list, after all entries whose score is
greater than or equal (so equal scores keep first-come order). -/
def insertDesc (x : ScoredCandidate) :
    List ScoredCandidate → List ScoredCandidate
  | [] => [x]
  | y :: ys => if y.score < x.score then x :: y :: ys else y :: insertDesc x ys

/-- `scored_candidates.sort(key=score, reverse=True)`: Python's sort is
stable, and a stable sort for a fixed comparison is extensionally unique,
so the stable insertion sort is its model. -/
def stableSortDesc (l : List ScoredCandidate) : List ScoredCandidate :=
  l.foldl (fun acc x => insertDesc x acc) []

/-- The normalization block of `rank_for_disease`: min-max normalize using
the first (max) and last (min) scores of the sorted list; if the range is
not positive every entry gets `normalized_score = 1.0`. -/
def normalizeScores : List ScoredCandidate → List ScoredCandidate
  | [] => []
  | x :: xs =>
    let maxScore := x.score
    let minScore := (xs.getLastD x).score
    let range := maxScore - minScore
    if 0 < range then
      (x :: xs).map (fun c =>
        { c with normalized_score := some ((c.score - minScore) / range) })
    else
      (x :: xs).map (fun c => { c with normalized_score := some 1 })

/-- `DrugRepurposeRanker.rank_for_disease`. -/
def rankForDisease (env : Env) (disease_query : String) (top_k : Nat) :
    Except Unit (List ScoredCandidate) :=
  match fuzzyMatchDisease env disease_query with
  | none => Except.ok []
  | some dis =>
    let cands := candidateDrugs env dis.disease_id
    if cands.isEmpty then Except.ok []
    else
      match scoreCandidates env (buildGraph env) dis cands with
      | Except.error e => Except.error e
      | Except.ok scored =>
        Except.ok ((normalizeScores (stableSortDesc scored)).take top_k)

/-- `DrugRepurposeRanker.update_weights` as a pure function on the stored
`(text_weight, graph_weight)` pair. -/
def updateWeights (w : ℚ × ℚ) (text_weight graph_weight : ℚ) : ℚ × ℚ :=
  let total := text_weight + graph_weight
  if 0 < total then (text_weight / total, graph_weight / total) else w

/-! ## Service boundary (`service.py`) -/

/-- `RepurposeService.rank_for_disease`: the `try/except` converts any
exception from the ranking pipeline into an empty result. -/
def serviceRankForDisease (env : Env) (disease_query : String)
    (top_k : Nat) : List ScoredCandidate :=
  match rankForDisease env disease_query top_k with
  | Except.ok results => results
  | Except.error _ => []

/-! ## Path explanation (`explain.py`) -/

/-- Attribute dict of the edge between two nodes, when one exists. -/
def Graph.edgeDataBetween (g : Graph) (u v : NodeId) : Option EdgeData :=
  ((edgesBetween g u v).head?).map (fun e => e.2.2)

/-- `DrugDiseaseExplainer._get_node_display_name`. -/
def displayName (env : Env) : NodeId → String
  | NodeId.drug i =>
    match getDrugById env i with
    | some d => d.drug_name
    | none => i
  | NodeId.dis i =>
    match getDiseaseById env i with
    | some d => d.disease_name
    | none => i
  | NodeId.gene s => s

/-- `DrugDiseaseExplainer._explain_edge`. -/
def explainEdge (env : Env) (g : Graph) (n1 n2 : NodeId) : String :=
  match g.edgeDataBetween n1 n2 with
  | none => "No connection"
  | some ed =>
    let a := displayName env n1
    let b := displayName env n2
    if ed.edge_type = "drug_disease" then
      a ++ " treats " ++ b ++ " (" ++ ed.evidence.getD "" ++ ")"
    else if ed.edge_type = "drug_gene" then
      a ++ " targets " ++ b ++ " (" ++ ed.note.getD "" ++ ")"
    else if ed.edge_type = "disease_gene_propagated" then
      a ++ " associated with " ++ b ++ " (via " ++
        ((ed.via_drug.map (displayName env)).getD "") ++ ")"
    else
      a ++ " connected to " ++ b

/-- `DrugDiseaseExplainer._explain_path`. -/
def explainPath (env : Env) (g : Graph) (path : List NodeId) : String :=
  if path.length < 2 then "No path found"
  else
    String.intercalate " → "
      ((path.zip path.tail).map (fun pr => explainEdge env g pr.1 pr.2))

/-- One element of the `graph_paths` list built by `_get_graph_paths`. -/
structure PathExplanation where
  path_id : Nat
  path : List NodeId
  length : Nat
  explanation : String
  deriving DecidableEq, Repr

/-- `DrugDiseaseExplainer._get_graph_paths` (default `max_paths = 3`),
running the path search with `max_length = 3`. -/
def getGraphPaths (env : Env) (g : Graph) (drug_id disease_id : String)
    (max_paths : Nat) : List PathExplanation :=
  let paths := getShortestPaths g drug_id disease_id 3
  (paths.take max_paths).enum.map (fun pr =>
    { path_id := pr.1 + 1
      path := pr.2
      length := pr.2.length - 1
      explanation := explainPath env g pr.2 })

/-! ## Sortedness and score filtering -/

/-- The list is sorted by composite score in descending order. -/
def SortedDesc (l : List ScoredCandidate) : Prop :=
  l.Pairwise (fun a b => b.score ≤ a.score)

/-- The sublist of candidates having a given composite score (used to state
stability of the sort). -/
def filterScore (v : ℚ) (l : List ScoredCandidate) : List ScoredCandidate :=
  l.filter (fun c => decide (c.score = v))

/-! ## Concrete environments used by witnesses and counterexamples -/

/-- An environment with an empty Entity Store: its built graph is empty. -/
def envC4 : Env :=
  { drugs := [], diseases := [], drug_disease := [], drug_gene := [],
    embed := fun _ => Except.ok 0, cos := fun _ _ => 0, log := fun _ => 1,
    text_weight := 3/5, graph_weight := 2/5 }

/-- A store with one drug and one disease (no edges). -/
def envC5 : Env :=
  { drugs := [⟨"d1", "alpha", "A", ""⟩], diseases := [⟨"x1", "flu", ""⟩],
    drug_disease := [], drug_gene := [],
    embed := fun _ => Except.ok 0, cos := fun _ _ => 0, log := fun _ => 1,
    text_weight := 3/5, graph_weight := 2/5 }

/-- A store whose drug `d1` has a known evidence row for disease `x1`,
leaving `d2` as the only candidate. -/
def envC3 : Env :=
  { drugs := [⟨"d1", "alpha", "A", ""⟩, ⟨"d2", "beta", "B", ""⟩],
    diseases := [⟨"x1", "flu", ""⟩],
    drug_disease := [⟨"d1", "x1", "ev"⟩], drug_gene := [],
    embed := fun _ => Except.ok 0, cos := fun _ _ => 0, log := fun _ => 1,
    text_weight := 3/5, graph_weight := 2/5 }

def disC3 : Disease := ⟨"x1", "flu", ""⟩

/-- The ranking produced by `envC3` for query "flu". -/
def outC3 : List ScoredCandidate :=
  [⟨"d2", "beta", "B", "", 0, 0, 0, "x1", "flu", some 1⟩]

/-- A store with one empty-indications drug (`d1`) and one cached drug. -/
def envC10 : Env :=
  { drugs := [⟨"d1", "alpha", "A", ""⟩, ⟨"d2", "beta", "B", "treats flu"⟩],
    diseases := [⟨"x1", "flu", ""⟩],
    drug_disease := [], drug_gene := [],
    embed := fun _ => Except.ok 0, cos := fun _ _ => 0, log := fun _ => 1,
    text_weight := 3/5, graph_weight := 2/5 }

def drugC10 : Drug := ⟨"d1", "alpha", "A", ""⟩

def disC10 : Disease := ⟨"x1", "flu", ""⟩

/-- A store where the Embedding Provider raises on the per-request disease
text, while both drugs are candidates; only `d1` is cached. -/
def envC9 : Env :=
  { drugs := [⟨"d1", "alpha", "A", "bad text"⟩, ⟨"d2", "beta", "B", ""⟩],
    diseases := [⟨"x1", "flu", "cough"⟩],
    drug_disease := [], drug_gene := [],
    embed := fun s => if s = "flu cough" then Except.error () else Except.ok 0,
    cos := fun _ _ => 0, log := fun _ => 1,
    text_weight := 3/5, graph_weight := 2/5 }

def disC9 : Disease := ⟨"x1", "flu", "cough"⟩

def drugC9 : Drug := ⟨"d2", "beta", "B", ""⟩

/-- A store with one known drug–disease edge, giving a 1-hop direct path. -/
def envC6 : Env :=
  { drugs := [⟨"d1", "alpha", "A", ""⟩], diseases := [⟨"x1", "flu", ""⟩],
    drug_disease := [⟨"d1", "x1", "ev"⟩], drug_gene := [],
    embed := fun _ => Except.ok 0, cos := fun _ _ => 0, log := fun _ => 1,
    text_weight := 3/5, graph_weight := 2/5 }

/-- A store with two tied-score candidates (to exercise sort stability). -/
def envC1 : Env :=
  { drugs := [⟨"d1", "alpha", "A", ""⟩, ⟨"d2", "beta", "B", ""⟩],
    diseases := [⟨"x1", "flu", ""⟩],
    drug_disease := [], drug_gene := [],
    embed := fun _ => Except.ok 0, cos := fun _ _ => 0, log := fun _ => 1,
    text_weight := 3/5, graph_weight := 2/5 }

def disC1 : Disease := ⟨"x1", "flu", ""⟩

/-- The scored candidate list produced by `envC1` for its disease. -/
def scoredC1 : List ScoredCandidate :=
  [⟨"d1", "alpha", "A", "", 0, 0, 0, "x1", "flu", none⟩,
   ⟨"d2", "beta", "B", "", 0, 0, 0, "x1", "flu", none⟩]

/-- A store with a single candidate (degenerate min-max range). -/
def envC2 : Env :=
  { drugs := [⟨"d1", "alpha", "A", ""⟩],
    diseases := [⟨"x1", "flu", ""⟩],
    drug_disease := [], drug_gene := [],
    embed := fun _ => Except.ok 0, cos := fun _ _ => 0, log := fun _ => 1,
    text_weight := 3/5, graph_weight := 2/5 }

def disC2 : Disease := ⟨"x1", "flu", ""⟩

def scoredC2 : List ScoredCandidate :=
  [⟨"d1", "alpha", "A", "", 0, 0, 0, "x1", "flu", none⟩]

/-- A store whose graph has a drug–disease edge and a drug–gene edge, so
that propagation creates one disease–gene edge mediated by the drug. -/
def envC8 : Env :=
  { drugs := [⟨"d1", "alpha", "A", ""⟩], diseases := [⟨"x1", "flu", ""⟩],
    drug_disease := [⟨"d1", "x1", "ev"⟩],
    drug_gene := [⟨"d1", "G1", "binds"⟩],
    embed := fun _ => Except.ok 0, cos := fun _ _ => 0, log := fun _ => 1,
    text_weight := 3/5, graph_weight := 2/5 }

/-- The direct drug–disease edge of `envC8`'s pre-propagation graph. -/
def edgeC8 : Edge :=
  (NodeId.drug "d1", NodeId.dis "x1", ⟨2, "drug_disease", some "ev", none, none⟩)

/-- The shape of an edge created by the propagation step: a
`disease_gene_propagated` edge of weight 0.5 between a disease node and a
gene node, annotated with a mediating drug node drawn from the builder's
drug-node set. -/
def PropagatedShape (dns : List NodeId) (e : Edge) : Prop :=
  e.2.2.weight = 1/2 ∧ e.2.2.edge_type = "disease_gene_propagated" ∧
  (∃ i, e.1 = NodeId.dis i) ∧ (∃ s, e.2.1 = NodeId.gene s) ∧
  ∃ dn ∈ dns, e.2.2.via_drug = some dn

/-! ## Helper lemmas -/

lemma two_le_length_of_mem {α : Type} [DecidableEq α] {x y : α} {l : List α}
    (hx : x ∈ l) (hy : y ∈ l) (hxy : x ≠ y) : 2 ≤ l.length := by
  have hsub : ({x, y} : Finset α) ⊆ l.toFinset := by
    intro z hz
    simp only [Finset.mem_insert, Finset.mem_singleton] at hz
    rcases hz with rfl | rfl <;> simpa [List.mem_toFinset]
  calc 2 = ({x, y} : Finset α).card := (Finset.card_pair hxy).symm
    _ ≤ l.toFinset.card := Finset.card_le_card hsub
    _ ≤ l.length := l.toFinset_card_le

lemma hasEdge_symm (g : Graph) (u v : NodeId) :
    g.hasEdge u v = g.hasEdge v u := by
  simp only [Graph.hasEdge, edgeMatches]
  refine Bool.eq_iff_iff.mpr ?_
  simp only [List.any_eq_true, decide_eq_true_eq]
  constructor
  · rintro ⟨e, he, h⟩; exact ⟨e, he, h.symm⟩
  · rintro ⟨e, he, h⟩; exact ⟨e, he, h.symm⟩

lemma mem_neighbors {g : Graph} {u v : NodeId} :
    v ∈ g.neighbors u ↔ v ∈ g.nodes ∧ g.hasEdge u v = true := by
  simp [Graph.neighbors, List.mem_filter]

lemma mem_commonNeighbors {g : Graph} {u v n : NodeId} :
    n ∈ commonNeighbors g u v ↔
      n ∈ g.nodes ∧ g.hasEdge u n = true ∧ g.hasEdge v n = true ∧
        n ≠ u ∧ n ≠ v := by
  simp [commonNeighbors, List.mem_filter, and_assoc]

lemma hasEdge_false_iff {g : Graph} {u v : NodeId} :
    g.hasEdge u v = false ↔ edgesBetween g u v = [] := by
  simp only [Graph.hasEdge, edgesBetween, List.any_eq_false,
    List.filter_eq_nil_iff, Bool.not_eq_true]

lemma mem_insertKV {α : Type} {m : List (String × α)} {k : String} {v : α}
    {p : String × α} (hp : p ∈ insertKV m k v) : p = (k, v) ∨ p ∈ m := by
  unfold insertKV at hp
  by_cases h : (m.any fun p => decide (p.1 = k)) = true
  · rw [if_pos h] at hp
    obtain ⟨q, hq, hq2⟩ := List.mem_map.mp hp
    by_cases hk : q.1 = k
    · simp [hk] at hq2; exact Or.inl hq2.symm
    · simp [hk] at hq2; exact Or.inr (hq2 ▸ hq)
  · rw [if_neg h] at hp
    rcases List.mem_append.mp hp with hp | hp
    · exact Or.inr hp
    · simp only [List.mem_singleton] at hp
      exact Or.inl hp

lemma keys_insertKV {α : Type} {m : List (String × α)} {k i : String} {v : α} :
    (∃ p ∈ insertKV m k v, p.1 = i) ↔ i = k ∨ ∃ p ∈ m, p.1 = i := by
  unfold insertKV
  by_cases h : (m.any fun p => decide (p.1 = k)) = true
  · rw [if_pos h]
    constructor
    · rintro ⟨p, hp, rfl⟩
      rcases List.mem_map.mp hp with ⟨q, hq, hq2⟩
      by_cases hk : q.1 = k
      · simp [hk] at hq2; left; rw [← hq2]
      · simp [hk] at hq2; right; exact ⟨q, hq, by rw [hq2]⟩
    · rintro (rfl | ⟨p, hp, rfl⟩)
      · rcases List.any_eq_true.mp h with ⟨q, hq, hq2⟩
        simp only [decide_eq_true_eq] at hq2
        exact ⟨(i, v), List.mem_map.mpr ⟨q, hq, by simp [hq2]⟩, rfl⟩
      · by_cases hk : p.1 = k
        · exact ⟨(k, v), List.mem_map.mpr ⟨p, hp, by simp [hk]⟩, by simp [hk]⟩
        · exact ⟨p, List.mem_map.mpr ⟨p, hp, by simp [hk]⟩, rfl⟩
  · rw [if_neg h]
    constructor
    · rintro ⟨p, hp, rfl⟩
      rcases List.mem_append.mp hp with hp | hp
      · exact Or.inr ⟨p, hp, rfl⟩
      · simp at hp; left; rw [hp]
    · rintro (rfl | ⟨p, hp, rfl⟩)
      · exact ⟨(i, v), by simp⟩
      · exact ⟨p, by simp [hp]⟩

lemma lookupKV_isSome_iff {α : Type} {m : List (String × α)} {i : String} :
    (lookupKV m i).isSome ↔ ∃ p ∈ m, p.1 = i := by
  simp [lookupKV, List.find?_isSome]

lemma foldl_insertKV_inv {α : Type} (key : α → String) (Q : String × α → Prop)
    (l : List α) (hl : ∀ a ∈ l, Q (key a, a)) :
    ∀ m : List (String × α), (∀ p ∈ m, Q p) →
      ∀ p ∈ l.foldl (fun m a => insertKV m (key a) a) m, Q p := by
  induction l with
  | nil => intro m hm p hp; exact hm p hp
  | cons a t ih =>
    intro m hm p hp
    refine ih (fun b hb => hl b (List.mem_cons_of_mem a hb)) _ ?_ p hp
    intro q hq
    rcases mem_insertKV hq with rfl | hq
    · exact hl a (List.mem_cons_self a t)
    · exact hm q hq

lemma keys_foldl_insertKV {α : Type} (key : α → String) (l : List α)
    {i : String} :
    ∀ m : List (String × α),
      ((∃ p ∈ l.foldl (fun m a => insertKV m (key a) a) m, p.1 = i) ↔
        (∃ p ∈ m, p.1 = i) ∨ ∃ a ∈ l, key a = i) := by
  induction l with
  | nil => intro m; simp
  | cons a t ih =>
    intro m
    rw [List.foldl_cons, ih]
    constructor
    · rintro (h | h)
      · rcases keys_insertKV.mp h with rfl | h
        · exact Or.inr ⟨a, by simp⟩
        · exact Or.inl h
      · rcases h with ⟨b, hb, hb2⟩
        exact Or.inr ⟨b, List.mem_cons_of_mem a hb, hb2⟩
    · rintro (h | ⟨b, hb, hb2⟩)
      · exact Or.inl (keys_insertKV.mpr (Or.inr h))
      · rcases List.mem_cons.mp hb with rfl | hb
        · exact Or.inl (keys_insertKV.mpr (Or.inl hb2.symm))
        · exact Or.inr ⟨b, hb, hb2⟩

/-- Every entry of `drugs_by_id` maps an id to a loaded drug carrying it. -/
lemma drugsById_inv (env : Env) :
    ∀ p ∈ drugsById env, p.2.drug_id = p.1 ∧ p.2 ∈ env.drugs := by
  refine foldl_insertKV_inv (fun d => d.drug_id)
    (fun p => p.2.drug_id = p.1 ∧ p.2 ∈ env.drugs) env.drugs
    (fun a ha => ⟨rfl, ha⟩) [] (by simp)

lemma getDrugById_some {env : Env} {i : String} {d : Drug}
    (h : getDrugById env i = some d) : d.drug_id = i ∧ d ∈ env.drugs := by
  unfold getDrugById lookupKV at h
  rcases Option.map_eq_some'.mp h with ⟨p, hp, rfl⟩
  have hmem := List.mem_of_find?_eq_some hp
  have hkey := List.find?_some hp
  simp only [decide_eq_true_eq] at hkey
  have := drugsById_inv env p hmem
  exact ⟨hkey ▸ this.1, this.2⟩

lemma getDrugById_isSome_iff {env : Env} {i : String} :
    (getDrugById env i).isSome ↔ ∃ d ∈ env.drugs, d.drug_id = i := by
  unfold getDrugById
  rw [lookupKV_isSome_iff]
  unfold drugsById
  rw [keys_foldl_insertKV (fun d => d.drug_id) env.drugs]
  simp

lemma mem_knownDrugIds {env : Env} {disId i : String} :
    i ∈ knownDrugIds env disId ↔
      ∃ row ∈ env.drug_disease, row.disease_id = disId ∧ row.drug_id = i ∧
        (getDrugById env i).isSome := by
  unfold knownDrugIds getDrugsForDisease
  constructor
  · intro h
    rcases List.mem_map.mp h with ⟨d, hd, rfl⟩
    rcases List.mem_filterMap.mp hd with ⟨j, hj, hjd⟩
    rcases List.mem_map.mp hj with ⟨row, hrow, rfl⟩
    rcases List.mem_filter.mp hrow with ⟨hrowmem, hdis⟩
    have hid := (getDrugById_some hjd).1
    refine ⟨row, hrowmem, by simpa using hdis, hid.symm, ?_⟩
    rw [hid]
    simp [hjd]
  · rintro ⟨row, hrow, hdis, hid, hsome⟩
    obtain ⟨d, hd⟩ := Option.isSome_iff_exists.mp hsome
    have hdid := (getDrugById_some hd).1
    refine List.mem_map.mpr ⟨d, ?_, hdid⟩
    refine List.mem_filterMap.mpr ⟨row.drug_id, ?_, ?_⟩
    · exact List.mem_map.mpr ⟨row, List.mem_filter.mpr ⟨hrow, by simp [hdis]⟩, rfl⟩
    · rw [hid]; exact hd

lemma mem_candidateDrugs {env : Env} {disId : String} {d : Drug} :
    d ∈ candidateDrugs env disId ↔
      d ∈ env.drugs ∧
        ¬∃ row ∈ env.drug_disease,
            row.disease_id = disId ∧ row.drug_id = d.drug_id := by
  unfold candidateDrugs
  rw [List.mem_filter]
  simp only [decide_eq_true_eq]
  constructor
  · rintro ⟨hd, hnk⟩
    refine ⟨hd, ?_⟩
    rintro ⟨row, hrow, hdis, hid⟩
    exact hnk (mem_knownDrugIds.mpr
      ⟨row, hrow, hdis, hid, getDrugById_isSome_iff.mpr ⟨d, hd, rfl⟩⟩)
  · rintro ⟨hd, hno⟩
    refine ⟨hd, fun hk => hno ?_⟩
    rcases mem_knownDrugIds.mp hk with ⟨row, hrow, hdis, hid, _⟩
    exact ⟨row, hrow, hdis, hid⟩

/-! ## Claim C7 (weight update) -/

/-- C7 (amended): `update_weights(t, g)` renormalizes the stored weights to
`(t/(t+g), g/(t+g))`, which then sum to 1, whenever `t + g > 0`; whenever
`t + g ≤ 0` — in particular for `update_weights(0, 0)` — it leaves the
stored weights unchanged rather than failing. -/
theorem updateWeights_spec (w : ℚ × ℚ) (t g : ℚ) :
    (0 < t + g →
      updateWeights w t g = (t / (t + g), g / (t + g)) ∧
      (updateWeights w t g).1 + (updateWeights w t g).2 = 1) ∧
    (t + g ≤ 0 → updateWeights w t g = w) := by
  unfold updateWeights
  constructor
  · intro h
    rw [if_pos h]
    exact ⟨rfl, by rw [div_add_div_same, div_self (ne_of_gt h)]⟩
  · intro h
    rw [if_neg (not_lt.mpr h)]

/-- C7 witness: renormalization at `(1, 1)` from stored weights
`(3/5, 2/5)`, and the no-op at `(0, 0)`. -/
theorem updateWeights_spec_witness :
    (updateWeights (3/5, 2/5) 1 1 = ((1 : ℚ) / (1 + 1), (1 : ℚ) / (1 + 1)) ∧
      (updateWeights (3/5, 2/5) 1 1).1 + (updateWeights (3/5, 2/5) 1 1).2 = 1) ∧
    updateWeights (3/5, 2/5) 0 0 = (3/5, 2/5) :=
  ⟨(updateWeights_spec (3/5, 2/5) 1 1).1 (by norm_num),
   (updateWeights_spec (3/5, 2/5) 0 0).2 (by norm_num)⟩

/-- C7 counterexample: the claim prescribes renormalization for every pair
with `t + g ≠ 0`, but at `(t, g) = (-1, -1)` the code's `total > 0` guard
fails and the stored weights `(1, 1)` are kept: the result is neither the
prescribed `(t/(t+g), g/(t+g)) = (1/2, 1/2)` nor does it sum to 1. -/
theorem updateWeights_claim_counterexample :
    updateWeights (1, 1) (-1) (-1) = (1, 1) ∧
    ((-1 : ℚ) / ((-1) + (-1)), (-1 : ℚ) / ((-1) + (-1))) =
      ((1 : ℚ)/2, (1 : ℚ)/2) ∧
    updateWeights (1, 1) (-1) (-1) ≠ ((1 : ℚ)/2, (1 : ℚ)/2) ∧
    (updateWeights (1, 1) (-1) (-1)).1 + (updateWeights (1, 1) (-1) (-1)).2 ≠ 1 ∧
    (-1 : ℚ) + (-1) ≠ 0 := by
  refine ⟨by norm_num [updateWeights], by norm_num,
    by norm_num [updateWeights, Prod.ext_iff],
    by norm_num [updateWeights], by norm_num⟩

/-! ## Claim C4 (absent-node link prediction) -/

/-- C4 counterexample: with node `drug:d1` absent from the built graph, the
link-prediction result contains no `normalized_common_neighbors` field at
all, refuting the claim that all three contracted fields are present and
zero. -/
theorem linkScores_absent_counterexample :
    lookupKV (computeLinkPredictionScores envC4.log (buildGraph envC4) "d1" "x1")
        "normalized_common_neighbors" = none ∧
    lookupKV (computeLinkPredictionScores envC4.log (buildGraph envC4) "d1" "x1")
        "normalized_common_neighbors" ≠ some 0 := by
  decide

/-- C4 (amended): whenever the drug node or the disease node is absent from
the built graph, `compute_link_prediction_scores` returns (without raising)
a result in which `adamic_adar` and `common_neighbors` are present and equal
to zero, while `normalized_common_neighbors` is absent — its consumers read
it with a default of 0.0. -/
theorem linkScores_absent (env : Env) (a b : String)
    (h : NodeId.drug a ∉ (buildGraph env).nodes ∨
      NodeId.dis b ∉ (buildGraph env).nodes) :
    lookupKV (computeLinkPredictionScores env.log (buildGraph env) a b)
        "adamic_adar" = some 0 ∧
    lookupKV (computeLinkPredictionScores env.log (buildGraph env) a b)
        "common_neighbors" = some 0 ∧
    lookupKV (computeLinkPredictionScores env.log (buildGraph env) a b)
        "normalized_common_neighbors" = none := by
  simp only [computeLinkPredictionScores]
  rw [if_pos h]
  refine ⟨by decide, by decide, by decide⟩

/-- C4 witness: the amended statement evaluated on the empty store. -/
theorem linkScores_absent_witness :
    lookupKV (computeLinkPredictionScores envC4.log (buildGraph envC4) "d9" "x9")
        "adamic_adar" = some 0 ∧
    lookupKV (computeLinkPredictionScores envC4.log (buildGraph envC4) "d9" "x9")
        "common_neighbors" = some 0 ∧
    lookupKV (computeLinkPredictionScores envC4.log (buildGraph envC4) "d9" "x9")
        "normalized_common_neighbors" = none :=
  linkScores_absent envC4 "d9" "x9" (by decide)

/-! ## Claim C5 (Adamic–Adar degree safety) -/

lemma degree_two_le_of_commonNeighbor {g : Graph} {u v n : NodeId}
    (hu : u ∈ g.nodes) (hv : v ∈ g.nodes) (huv : u ≠ v)
    (hn : n ∈ commonNeighbors g u v) : 2 ≤ g.degree n := by
  rcases mem_commonNeighbors.mp hn with ⟨_, hun, hvn, _, _⟩
  have hu' : u ∈ g.neighbors n :=
    mem_neighbors.mpr ⟨hu, by rw [← hasEdge_symm]; exact hun⟩
  have hv' : v ∈ g.neighbors n :=
    mem_neighbors.mpr ⟨hv, by rw [← hasEdge_symm]; exact hvn⟩
  exact two_le_length_of_mem hu' hv' huv

/-- C5: for a drug node and a disease node present in the built graph, every
shared neighbor has degree at least 2, so the term `1/log(degree n)` never
divides by `log` of a non-positive or degree-≤1 argument, and the spec's
guarded Adamic–Adar sum (degree ≤ 1 contributes 0) coincides with the
source's unguarded sum over shared neighbors of `1/log(degree n)` — the
guarded branch is unreachable. Proved for every numeric `log` function, in
particular the true logarithm. -/
theorem adamicAdar_safe (env : Env) (a b : String)
    (hu : NodeId.drug a ∈ (buildGraph env).nodes)
    (hv : NodeId.dis b ∈ (buildGraph env).nodes) :
    (∀ n ∈ commonNeighbors (buildGraph env) (NodeId.drug a) (NodeId.dis b),
        2 ≤ (buildGraph env).degree n) ∧
    specGuardedAdamicAdar env.log (buildGraph env) (NodeId.drug a)
        (NodeId.dis b) =
      adamicAdar env.log (buildGraph env) (NodeId.drug a) (NodeId.dis b) := by
  have hne : NodeId.drug a ≠ NodeId.dis b := fun h => NodeId.noConfusion h
  have hdeg : ∀ n ∈ commonNeighbors (buildGraph env) (NodeId.drug a)
      (NodeId.dis b), 2 ≤ (buildGraph env).degree n :=
    fun n hn => degree_two_le_of_commonNeighbor hu hv hne hn
  refine ⟨hdeg, ?_⟩
  unfold specGuardedAdamicAdar adamicAdar
  congr 1
  apply List.map_congr_left
  intro n hn
  have h2 := hdeg n hn
  rw [if_neg (by omega)]

/-- C5 witness: both nodes present in a concrete built graph. -/
theorem adamicAdar_safe_witness :
    (∀ n ∈ commonNeighbors (buildGraph envC5) (NodeId.drug "d1")
        (NodeId.dis "x1"), 2 ≤ (buildGraph envC5).degree n) ∧
    specGuardedAdamicAdar envC5.log (buildGraph envC5) (NodeId.drug "d1")
        (NodeId.dis "x1") =
      adamicAdar envC5.log (buildGraph envC5) (NodeId.drug "d1")
        (NodeId.dis "x1") :=
  adamicAdar_safe envC5 "d1" "x1" (by decide) (by decide)

/-! ## Claim C10 (empty indications text) -/

lemma drugEmbeddings_key_aux (embedf : String → Except Unit Nat) :
    ∀ (l : List Drug) (m : List (String × Nat)) (i : String),
      (lookupKV (l.foldl (fun m d =>
        if d.indications_text ≠ "" then
          match embedf d.indications_text with
          | Except.ok e => insertKV m d.drug_id e
          | Except.error _ => m
        else m) m) i).isSome →
      (lookupKV m i).isSome ∨
        ∃ d ∈ l, d.drug_id = i ∧ d.indications_text ≠ "" := by
  intro l
  induction l with
  | nil => intro m i h; exact Or.inl h
  | cons d ds ih =>
    intro m i h
    rw [List.foldl_cons] at h
    have step : ∀ m' : List (String × Nat),
        (lookupKV m' i).isSome →
        ((lookupKV m i).isSome ∨ i = d.drug_id ∧ d.indications_text ≠ "") →
        True := fun _ _ _ => trivial
    by_cases ht : d.indications_text ≠ ""
    · rw [if_pos ht] at h
      cases hemb : embedf d.indications_text with
      | ok e =>
        rw [hemb] at h
        rcases ih _ i h with h' | h'
        · rw [lookupKV_isSome_iff] at h'
          rcases keys_insertKV.mp h' with rfl | h''
          · exact Or.inr ⟨d, List.mem_cons_self d ds, rfl, ht⟩
          · exact Or.inl (lookupKV_isSome_iff.mpr h'')
        · rcases h' with ⟨d', hd', hi, hn⟩
          exact Or.inr ⟨d', List.mem_cons_of_mem d hd', hi, hn⟩
      | error e =>
        rw [hemb] at h
        rcases ih _ i h with h' | h'
        · exact Or.inl h'
        · rcases h' with ⟨d', hd', hi, hn⟩
          exact Or.inr ⟨d', List.mem_cons_of_mem d hd', hi, hn⟩
    · rw [if_neg ht] at h
      rcases ih _ i h with h' | h'
      · exact Or.inl h'
      · rcases h' with ⟨d', hd', hi, hn⟩
        exact Or.inr ⟨d', List.mem_cons_of_mem d hd', hi, hn⟩

/-- The embedding cache only holds ids of drugs with non-empty text. -/
lemma drugEmbeddings_key {env : Env} {i : String}
    (h : (lookupKV (drugEmbeddings env) i).isSome) :
    ∃ d ∈ env.drugs, d.drug_id = i ∧ d.indications_text ≠ "" := by
  unfold drugEmbeddings at h
  rcases drugEmbeddings_key_aux env.embed env.drugs [] i h with h' | h'
  · simp [lookupKV] at h'
  · exact h'

/-- C10: a drug record with empty `indications_text` gets no cached
embedding at engine construction (assuming the data model's unique
`drug_id` key); in every ranking its text score short-circuits to exactly
0.0 on the missing cache entry, and its composite score collapses to
`graph_weight * graph_score`. -/
theorem emptyIndications_zero (env : Env) (d : Drug) (dis : Disease)
    (g : Graph)
    (hnodup : (env.drugs.map (fun d => d.drug_id)).Nodup)
    (hd : d ∈ env.drugs) (hempty : d.indications_text = "") :
    lookupKV (drugEmbeddings env) d.drug_id = none ∧
    computeTextScore env d dis = Except.ok 0 ∧
    ∃ c, scoreCandidate env g dis d = Except.ok c ∧ c.text_score = 0 ∧
      c.score = env.graph_weight * c.graph_score := by
  have hnone : lookupKV (drugEmbeddings env) d.drug_id = none := by
    rw [← Option.not_isSome_iff_eq_none]
    intro hs
    obtain ⟨d', hd', hid, hne⟩ := drugEmbeddings_key hs
    have hdd : d' = d := List.inj_on_of_nodup_map hnodup hd' hd hid
    rw [hdd, hempty] at hne
    exact hne rfl
  have hts : computeTextScore env d dis = Except.ok 0 := by
    simp only [computeTextScore, hnone]
  refine ⟨hnone, hts, ⟨d.drug_id, d.drug_name, d.atc, d.indications_text,
    env.text_weight * 0 +
      env.graph_weight * computeGraphScore env g d.drug_id dis.disease_id,
    0, computeGraphScore env g d.drug_id dis.disease_id,
    dis.disease_id, dis.disease_name, none⟩, ?_, rfl, ?_⟩
  · unfold scoreCandidate
    rw [hts]
  · simp only [mul_zero, zero_add]

/-- C10 witness: the empty-indications drug of a concrete store. -/
theorem emptyIndications_zero_witness :
    lookupKV (drugEmbeddings envC10) drugC10.drug_id = none ∧
    computeTextScore envC10 drugC10 disC10 = Except.ok 0 ∧
    ∃ c, scoreCandidate envC10 (buildGraph envC10) disC10 drugC10 =
        Except.ok c ∧ c.text_score = 0 ∧
      c.score = envC10.graph_weight * c.graph_score :=
  emptyIndications_zero envC10 drugC10 disC10 (buildGraph envC10)
    (by decide) (by decide) rfl

/-! ## Claim C3 (known drugs excluded, no other filtering) -/

lemma scoreCandidate_ok {env : Env} {g : Graph} {dis : Disease} {d : Drug}
    {c : ScoredCandidate} (h : scoreCandidate env g dis d = Except.ok c) :
    c.drug_id = d.drug_id := by
  unfold scoreCandidate at h
  cases hts : computeTextScore env d dis with
  | error e => rw [hts] at h; cases h
  | ok ts =>
    rw [hts] at h
    injection h with h
    subst h
    rfl

lemma scoreCandidates_ids {env : Env} {g : Graph} {dis : Disease}
    {l : List Drug} :
    ∀ {scored : List ScoredCandidate},
      scoreCandidates env g dis l = Except.ok scored →
      scored.map (fun c => c.drug_id) = l.map (fun d => d.drug_id) := by
  induction l with
  | nil =>
    intro scored h
    unfold scoreCandidates at h
    injection h with h
    subst h
    rfl
  | cons d ds ih =>
    intro scored h
    unfold scoreCandidates at h
    cases hc : scoreCandidate env g dis d with
    | error e => rw [hc] at h; cases h
    | ok c =>
      rw [hc] at h
      cases hs : scoreCandidates env g dis ds with
      | error e => rw [hs] at h; cases h
      | ok cs =>
        rw [hs] at h
        injection h with h
        subst h
        simp only [List.map_cons]
        rw [ih hs, scoreCandidate_ok hc]

lemma mem_insertDesc {x z : ScoredCandidate} :
    ∀ {l : List ScoredCandidate}, z ∈ insertDesc x l ↔ z = x ∨ z ∈ l := by
  intro l
  induction l with
  | nil => simp [insertDesc]
  | cons y ys ih =>
    unfold insertDesc
    by_cases h : y.score < x.score
    · rw [if_pos h]
      simp [List.mem_cons]
    · rw [if_neg h]
      simp only [List.mem_cons, ih]
      tauto

lemma mem_sortFold :
    ∀ (l : List ScoredCandidate) (acc : List ScoredCandidate)
      (z : ScoredCandidate),
      z ∈ l.foldl (fun a x => insertDesc x a) acc ↔ z ∈ acc ∨ z ∈ l := by
  intro l
  induction l with
  | nil => intro acc z; simp
  | cons x xs ih =>
    intro acc z
    rw [List.foldl_cons, ih, mem_insertDesc]
    simp [List.mem_cons]
    tauto

lemma mem_stableSortDesc {l : List ScoredCandidate} {z : ScoredCandidate} :
    z ∈ stableSortDesc l ↔ z ∈ l := by
  unfold stableSortDesc
  rw [mem_sortFold]
  simp

lemma mem_normalizeScores {l : List ScoredCandidate} {c : ScoredCandidate}
    (hc : c ∈ normalizeScores l) :
    ∃ c' ∈ l, c.score = c'.score ∧ c.drug_id = c'.drug_id := by
  cases l with
  | nil => simp [normalizeScores] at hc
  | cons x xs =>
    simp only [normalizeScores] at hc
    split at hc
    · obtain ⟨c', hc', rfl⟩ := List.mem_map.mp hc
      exact ⟨c', hc', rfl, rfl⟩
    · obtain ⟨c', hc', rfl⟩ := List.mem_map.mp hc
      exact ⟨c', hc', rfl, rfl⟩

/-- Inversion of `rank_for_disease` on a resolved query: the output is the
truncated, normalized, sorted scoring of the candidate set. -/
lemma rank_inv {env : Env} {q : String} {k : Nat} {dis : Disease}
    {out : List ScoredCandidate}
    (hdis : fuzzyMatchDisease env q = some dis)
    (hout : rankForDisease env q k = Except.ok out) :
    ∃ scored, scoreCandidates env (buildGraph env) dis
        (candidateDrugs env dis.disease_id) = Except.ok scored ∧
      out = (normalizeScores (stableSortDesc scored)).take k := by
  simp only [rankForDisease, hdis] at hout
  split at hout
  next hc =>
    injection hout with hout
    refine ⟨[], ?_, ?_⟩
    · rw [List.isEmpty_iff.mp hc]
      rfl
    · rw [← hout]
      rw [show normalizeScores (stableSortDesc []) = [] from rfl]
      rw [List.take_nil]
  next hc =>
    split at hout
    next e heq => cases hout
    next scored heq =>
      injection hout with hout
      exact ⟨scored, heq, hout.symm⟩

/-- C3: no drug with a known evidence row for the resolved disease ever
appears in the output of `rank_for_disease`, and the candidate set is
exactly the loaded drugs without such a row — no other filtering. -/
theorem known_excluded (env : Env) (q : String) (k : Nat) (dis : Disease)
    (out : List ScoredCandidate)
    (hdis : fuzzyMatchDisease env q = some dis)
    (hout : rankForDisease env q k = Except.ok out) :
    (∀ c ∈ out, ¬∃ row ∈ env.drug_disease,
        row.disease_id = dis.disease_id ∧ row.drug_id = c.drug_id) ∧
    (∀ d : Drug, d ∈ candidateDrugs env dis.disease_id ↔
        d ∈ env.drugs ∧ ¬∃ row ∈ env.drug_disease,
          row.disease_id = dis.disease_id ∧ row.drug_id = d.drug_id) := by
  obtain ⟨scored, hscored, hout'⟩ := rank_inv hdis hout
  refine ⟨?_, fun d => mem_candidateDrugs⟩
  intro c hc hrow
  subst hout'
  have hc1 : c ∈ normalizeScores (stableSortDesc scored) :=
    List.mem_of_mem_take hc
  obtain ⟨c', hc', hsc, hid⟩ := mem_normalizeScores hc1
  have hc2 : c' ∈ scored := mem_stableSortDesc.mp hc'
  have hids := scoreCandidates_ids hscored
  have hmem : c'.drug_id ∈
      (candidateDrugs env dis.disease_id).map (fun d => d.drug_id) := by
    rw [← hids]
    exact List.mem_map_of_mem _ hc2
  obtain ⟨d, haD, hdid⟩ := List.mem_map.mp hmem
  have hcand := mem_candidateDrugs.mp haD
  rcases hrow with ⟨row, hrowmem, hdis2, hidr⟩
  exact hcand.2 ⟨row, hrowmem, hdis2, hidr.trans (hid.trans hdid.symm)⟩

/-- C3 witness: drug `d1` has evidence for the resolved disease and is
absent from the output; `d2` has none and is the sole candidate. -/
theorem known_excluded_witness :
    (∀ c ∈ outC3, ¬∃ row ∈ envC3.drug_disease,
        row.disease_id = disC3.disease_id ∧ row.drug_id = c.drug_id) ∧
    (∀ d : Drug, d ∈ candidateDrugs envC3 disC3.disease_id ↔
        d ∈ envC3.drugs ∧ ¬∃ row ∈ envC3.drug_disease,
          row.disease_id = disC3.disease_id ∧ row.drug_id = d.drug_id) :=
  known_excluded envC3 "flu" 10 disC3 outC3 (by with_unfolding_all rfl)
    (by with_unfolding_all rfl)

/-! ## Claim C9 (engine-boundary exception handling) -/

/-- C9 counterexample: in `envC9` the provider raises while the first
candidate (`d1`) is being scored; the request returns `[]` even though the
other candidate (`d2`) scores successfully on its own — the "best-effort set
of the other, successfully scored candidates" is not returned. -/
theorem service_partial_failure_counterexample :
    serviceRankForDisease envC9 "flu" 10 = [] ∧
    rankForDisease envC9 "flu" 10 = Except.error () ∧
    candidateDrugs envC9 disC9.disease_id =
      [⟨"d1", "alpha", "A", "bad text"⟩, drugC9] ∧
    scoreCandidate envC9 (buildGraph envC9) disC9 drugC9 =
      Except.ok ⟨"d2", "beta", "B", "", 0, 0, 0, "x1", "flu", none⟩ := by
  refine ⟨by with_unfolding_all rfl, by with_unfolding_all rfl,
    by with_unfolding_all rfl, by with_unfolding_all rfl⟩

/-- C9 (amended): every exception raised by a collaborator during scoring is
caught at the service boundary — `RepurposeService.rank_for_disease` always
returns a plain list, equal to the ranker's list on success and `[]` when
any exception was raised. The handling is not best-effort per candidate: a
single failing candidate empties the entire request's result. -/
theorem service_no_raw_exception (env : Env) (q : String) (k : Nat) :
    (∃ r, rankForDisease env q k = Except.ok r ∧
      serviceRankForDisease env q k = r) ∨
    (∃ e, rankForDisease env q k = Except.error e ∧
      serviceRankForDisease env q k = []) := by
  cases h : rankForDisease env q k with
  | ok r =>
    exact Or.inl ⟨r, rfl, by unfold serviceRankForDisease; rw [h]⟩
  | error e =>
    exact Or.inr ⟨e, rfl, by unfold serviceRankForDisease; rw [h]⟩

/-! ## Claim C6 (bounded path search) -/

lemma simplePathsFrom_length {g : Graph} {t : NodeId} :
    ∀ (fuel : Nat) (u : NodeId) (vis : List NodeId)
      (p : List NodeId), p ∈ simplePathsFrom g t fuel u vis →
      p.length ≤ fuel + 1 := by
  intro fuel
  induction fuel with
  | zero =>
    intro u vis p hp
    unfold simplePathsFrom at hp
    split at hp
    · simp only [List.mem_singleton] at hp
      subst hp
      simp
    · cases hp
  | succ n ih =>
    intro u vis p hp
    unfold simplePathsFrom at hp
    split at hp
    · simp only [List.mem_singleton] at hp
      subst hp
      simp
    · obtain ⟨w, hw, hp2⟩ := List.mem_flatMap.mp hp
      obtain ⟨q, hq, rfl⟩ := List.mem_map.mp hp2
      have := ih w (u :: vis) q hq
      simp only [List.length_cons]
      omega

lemma mem_enumFrom_snd {α : Type} :
    ∀ {l : List α} {n : Nat} {p : Nat × α}, p ∈ l.enumFrom n → p.2 ∈ l := by
  intro l
  induction l with
  | nil => intro n p hp; cases hp
  | cons a t ih =>
    intro n p hp
    rcases List.mem_cons.mp hp with rfl | hp
    · exact List.mem_cons_self a t
    · exact List.mem_cons_of_mem a (ih hp)

lemma getShortestPaths_props (g : Graph) (a b : String) (m : Nat) :
    (getShortestPaths g a b m).length ≤ 3 ∧
    (∀ p ∈ getShortestPaths g a b m, p.length ≤ m + 1) ∧
    (∀ sp, NodeId.drug a ∈ g.nodes → NodeId.dis b ∈ g.nodes →
      shortestPath g (NodeId.drug a) (NodeId.dis b) = some sp →
      sp.length ≤ m + 1 → getShortestPaths g a b m = [sp]) ∧
    ((NodeId.drug a ∉ g.nodes ∨ NodeId.dis b ∉ g.nodes) →
      getShortestPaths g a b m = []) ∧
    (shortestPath g (NodeId.drug a) (NodeId.dis b) = none →
      getShortestPaths g a b m = []) := by
  by_cases habs : NodeId.drug a ∉ g.nodes ∨ NodeId.dis b ∉ g.nodes
  · have hres : getShortestPaths g a b m = [] := by
      simp only [getShortestPaths]
      rw [if_pos habs]
    refine ⟨?_, ?_, ?_, fun _ => hres, fun _ => hres⟩
    · rw [hres]; simp
    · rw [hres]; simp
    · intro sp hu hv _ _
      rcases habs with h | h
      · exact absurd hu h
      · exact absurd hv h
  · cases hsp : shortestPath g (NodeId.drug a) (NodeId.dis b) with
    | none =>
      have hres : getShortestPaths g a b m = [] := by
        simp only [getShortestPaths, hsp]
        rw [if_neg habs]
      refine ⟨?_, ?_, ?_, fun h => absurd h habs, fun _ => hres⟩
      · rw [hres]; simp
      · rw [hres]; simp
      · intro sp _ _ hsp' _
        exact Option.noConfusion hsp'
    | some sp0 =>
      by_cases hlen : sp0.length ≤ m + 1
      · have hres : getShortestPaths g a b m = [sp0] := by
          simp only [getShortestPaths, hsp]
          rw [if_neg habs, if_pos hlen]
        refine ⟨?_, ?_, ?_, fun h => absurd h habs, ?_⟩
        · rw [hres]; simp
        · rw [hres]
          intro p hp
          simp only [List.mem_singleton] at hp
          subst hp
          exact hlen
        · intro sp _ _ hsp' _
          injection hsp' with h2
          rw [hres, h2]
        · intro hnone
          exact Option.noConfusion hnone
      · have hres : getShortestPaths g a b m =
            ((allSimplePaths g (NodeId.drug a) (NodeId.dis b) m).filter
              (fun p => decide (p.length ≤ m + 1))).take 3 := by
          simp only [getShortestPaths, hsp]
          rw [if_neg habs, if_neg hlen]
        refine ⟨?_, ?_, ?_, fun h => absurd h habs, ?_⟩
        · rw [hres]; exact List.length_take_le 3 _
        · rw [hres]
          intro p hp
          have hp2 := List.mem_of_mem_take hp
          have h3 := (List.mem_filter.mp hp2).2
          simpa using h3
        · intro sp _ _ hsp' hl
          injection hsp' with h2
          rw [← h2] at hl
          exact absurd hl hlen
        · intro hnone
          exact Option.noConfusion hnone

/-- C6: the path search returns at most 3 paths, each of at most
`max_length` hops (`max_length + 1` nodes); a short enough direct shortest
path is returned as the sole path; an absent endpoint or the absence of any
path yields `[]` rather than an error; and every path rendered by the
explainer's `_get_graph_paths` (which runs the search with
`max_length = 3`) has at most 4 nodes. -/
theorem path_search_bounds (env : Env) (a b : String) (m : Nat) :
    (getShortestPaths (buildGraph env) a b m).length ≤ 3 ∧
    (∀ p ∈ getShortestPaths (buildGraph env) a b m, p.length ≤ m + 1) ∧
    (∀ sp, NodeId.drug a ∈ (buildGraph env).nodes →
      NodeId.dis b ∈ (buildGraph env).nodes →
      shortestPath (buildGraph env) (NodeId.drug a) (NodeId.dis b) = some sp →
      sp.length ≤ m + 1 → getShortestPaths (buildGraph env) a b m = [sp]) ∧
    ((NodeId.drug a ∉ (buildGraph env).nodes ∨
        NodeId.dis b ∉ (buildGraph env).nodes) →
      getShortestPaths (buildGraph env) a b m = []) ∧
    (shortestPath (buildGraph env) (NodeId.drug a) (NodeId.dis b) = none →
      getShortestPaths (buildGraph env) a b m = []) ∧
    (∀ pe ∈ getGraphPaths env (buildGraph env) a b 3,
      pe.path.length ≤ 3 + 1) := by
  obtain ⟨h1, h2, h3, h4, h5⟩ := getShortestPaths_props (buildGraph env) a b m
  obtain ⟨_, h2', _, _, _⟩ := getShortestPaths_props (buildGraph env) a b 3
  refine ⟨h1, h2, h3, h4, h5, ?_⟩
  intro pe hpe
  simp only [getGraphPaths] at hpe
  obtain ⟨pr, hpr, rfl⟩ := List.mem_map.mp hpe
  have hmem : pr.2 ∈ (getShortestPaths (buildGraph env) a b 3).take 3 :=
    mem_enumFrom_snd hpr
  exact h2' pr.2 (List.mem_of_mem_take hmem)

/-- C6 witness: a 1-hop direct shortest path is returned as the sole path. -/
theorem path_search_bounds_witness :
    getShortestPaths (buildGraph envC6) "d1" "x1" 3 =
      [[NodeId.drug "d1", NodeId.dis "x1"]] :=
  (path_search_bounds envC6 "d1" "x1" 3).2.2.1
    [NodeId.drug "d1", NodeId.dis "x1"] (by decide) (by decide)
    (by decide) (by decide)

/-! ## Claims C1 and C2 (sorting, stability, normalization) -/

lemma filterScore_cons {v : ℚ} {z : ScoredCandidate}
    {l : List ScoredCandidate} :
    filterScore v (z :: l) =
      (if z.score = v then [z] else []) ++ filterScore v l := by
  by_cases h : z.score = v <;> simp [filterScore, List.filter_cons, h]

lemma insertDesc_sorted {x : ScoredCandidate} :
    ∀ {l : List ScoredCandidate}, SortedDesc l →
      SortedDesc (insertDesc x l) := by
  intro l
  induction l with
  | nil => intro _; exact List.pairwise_singleton _ _
  | cons y ys ih =>
    intro h
    rcases List.pairwise_cons.mp h with ⟨hy, hys⟩
    unfold insertDesc
    by_cases hlt : y.score < x.score
    · rw [if_pos hlt]
      refine List.pairwise_cons.mpr ⟨?_, h⟩
      intro z hz
      rcases List.mem_cons.mp hz with rfl | hz
      · exact le_of_lt hlt
      · exact le_trans (hy z hz) (le_of_lt hlt)
    · rw [if_neg hlt]
      refine List.pairwise_cons.mpr ⟨?_, ih hys⟩
      intro z hz
      rcases mem_insertDesc.mp hz with rfl | hz
      · exact not_lt.mp hlt
      · exact hy z hz

lemma filterScore_insertDesc {x : ScoredCandidate} {v : ℚ} :
    ∀ {l : List ScoredCandidate}, SortedDesc l →
      filterScore v (insertDesc x l) =
        filterScore v l ++ (if x.score = v then [x] else []) := by
  intro l
  induction l with
  | nil =>
    intro _
    by_cases hx : x.score = v <;>
      simp [insertDesc, filterScore, List.filter_cons, hx]
  | cons y ys ih =>
    intro h
    rcases List.pairwise_cons.mp h with ⟨hy, hys⟩
    unfold insertDesc
    by_cases hlt : y.score < x.score
    · rw [if_pos hlt]
      by_cases hx : x.score = v
      · have hnil : filterScore v (y :: ys) = [] := by
          unfold filterScore
          rw [List.filter_eq_nil_iff]
          intro z hz
          have hzle : z.score ≤ y.score := by
            rcases List.mem_cons.mp hz with rfl | hz2
            · exact le_refl _
            · exact hy z hz2
          have hzlt : z.score < v :=
            lt_of_le_of_lt hzle (by rw [← hx]; exact hlt)
          simp only [decide_eq_true_eq]
          exact ne_of_lt hzlt
        rw [filterScore_cons, hnil, if_pos hx]
        simp
      · rw [filterScore_cons, if_neg hx]
        simp
    · rw [if_neg hlt]
      rw [filterScore_cons, filterScore_cons, ih hys, List.append_assoc]

lemma sortFold_props :
    ∀ (l acc : List ScoredCandidate), SortedDesc acc →
      SortedDesc (l.foldl (fun a x => insertDesc x a) acc) ∧
      ∀ v, filterScore v (l.foldl (fun a x => insertDesc x a) acc) =
        filterScore v acc ++ filterScore v l := by
  intro l
  induction l with
  | nil =>
    intro acc h
    exact ⟨h, fun v => by simp [filterScore]⟩
  | cons x xs ih =>
    intro acc h
    rw [List.foldl_cons]
    obtain ⟨hs, hf⟩ := ih (insertDesc x acc) (insertDesc_sorted h)
    refine ⟨hs, fun v => ?_⟩
    rw [hf v, filterScore_insertDesc h, List.append_assoc]
    congr 1
    rw [filterScore_cons]

lemma stableSortDesc_sorted (l : List ScoredCandidate) :
    SortedDesc (stableSortDesc l) :=
  (sortFold_props l [] List.Pairwise.nil).1

lemma stableSortDesc_filterScore (l : List ScoredCandidate) (v : ℚ) :
    filterScore v (stableSortDesc l) = filterScore v l := by
  have h := (sortFold_props l [] List.Pairwise.nil).2 v
  simpa [filterScore] using h

lemma lastD_le_of_sorted :
    ∀ {x : ScoredCandidate} {xs : List ScoredCandidate},
      SortedDesc (x :: xs) → ∀ e ∈ x :: xs, (xs.getLastD x).score ≤ e.score := by
  intro x xs
  induction xs generalizing x with
  | nil =>
    intro h e he
    simp only [List.mem_singleton] at he
    subst he
    simp [List.getLastD]
  | cons y ys ih =>
    intro h e he
    rw [List.getLastD_cons]
    have h2 : SortedDesc (y :: ys) := (List.pairwise_cons.mp h).2
    rcases List.mem_cons.mp he with rfl | he2
    · have hyx : y.score ≤ e.score :=
        (List.pairwise_cons.mp h).1 y (List.mem_cons_self y ys)
      exact le_trans (ih h2 y (List.mem_cons_self y ys)) hyx
    · exact ih h2 e he2

lemma sorted_head_ge {x : ScoredCandidate} {xs : List ScoredCandidate}
    (h : SortedDesc (x :: xs)) : ∀ e ∈ x :: xs, e.score ≤ x.score := by
  intro e he
  rcases List.mem_cons.mp he with rfl | he
  · exact le_refl _
  · exact (List.pairwise_cons.mp h).1 e he

lemma getLastD_mem :
    ∀ (xs : List ScoredCandidate) (x : ScoredCandidate),
      xs.getLastD x ∈ x :: xs := by
  intro xs
  induction xs with
  | nil => intro x; simp [List.getLastD]
  | cons y ys ih =>
    intro x
    rw [List.getLastD_cons]
    exact List.mem_cons_of_mem x (ih y)

lemma normalizeScores_eq_map (l : List ScoredCandidate) (hne : l ≠ []) :
    ∃ f : ScoredCandidate → ScoredCandidate,
      normalizeScores l = l.map f ∧
      ∀ c, (f c).score = c.score ∧ (f c).drug_id = c.drug_id := by
  cases l with
  | nil => exact absurd rfl hne
  | cons x xs =>
    simp only [normalizeScores]
    by_cases h0 : 0 < x.score - (xs.getLastD x).score
    · rw [if_pos h0]
      exact ⟨_, rfl, fun c => ⟨rfl, rfl⟩⟩
    · rw [if_neg h0]
      exact ⟨_, rfl, fun c => ⟨rfl, rfl⟩⟩

lemma normalizeScores_sorted {l : List ScoredCandidate} (h : SortedDesc l) :
    SortedDesc (normalizeScores l) := by
  cases l with
  | nil => exact List.Pairwise.nil
  | cons x xs =>
    obtain ⟨f, hmap, hf⟩ := normalizeScores_eq_map (x :: xs) (by simp)
    rw [hmap]
    refine List.pairwise_map.mpr ?_
    refine h.imp ?_
    intro a b hab
    rw [(hf b).1, (hf a).1]
    exact hab

lemma normalizeScores_spec {x : ScoredCandidate} {xs : List ScoredCandidate}
    (h : SortedDesc (x :: xs)) :
    ∀ c ∈ normalizeScores (x :: xs),
      c.normalized_score = some
        (if 0 < x.score - (xs.getLastD x).score
         then (c.score - (xs.getLastD x).score) /
            (x.score - (xs.getLastD x).score)
         else 1) ∧
      ∃ ns, c.normalized_score = some ns ∧ 0 ≤ ns ∧ ns ≤ 1 := by
  have hlast := lastD_le_of_sorted h
  have hhead := sorted_head_ge h
  intro c hc
  simp only [normalizeScores] at hc
  by_cases h0 : 0 < x.score - (xs.getLastD x).score
  · rw [if_pos h0] at hc
    obtain ⟨c0, hc0, rfl⟩ := List.mem_map.mp hc
    refine ⟨by rw [if_pos h0], ?_⟩
    refine ⟨_, rfl, ?_, ?_⟩
    · apply div_nonneg
      · show 0 ≤ c0.score - (xs.getLastD x).score
        have := hlast c0 hc0
        linarith
      · linarith
    · rw [div_le_one h0]
      show c0.score - (xs.getLastD x).score ≤ x.score - (xs.getLastD x).score
      have := hhead c0 hc0
      linarith
  · rw [if_neg h0] at hc
    obtain ⟨c0, hc0, rfl⟩ := List.mem_map.mp hc
    exact ⟨by rw [if_neg h0], ⟨1, rfl, by norm_num, le_refl 1⟩⟩

/-- The rank output equation shared by the sorting and normalization
claims: on a resolved query with successfully scored candidates, the output
is the top-`k` prefix of the normalized, stably sorted scoring. -/
lemma rank_eq_of_scored {env : Env} {q : String} {k : Nat} {dis : Disease}
    {scored : List ScoredCandidate}
    (hdis : fuzzyMatchDisease env q = some dis)
    (hscored : scoreCandidates env (buildGraph env) dis
        (candidateDrugs env dis.disease_id) = Except.ok scored) :
    rankForDisease env q k =
      Except.ok ((normalizeScores (stableSortDesc scored)).take k) := by
  simp only [rankForDisease, hdis]
  by_cases hc : (candidateDrugs env dis.disease_id).isEmpty = true
  · rw [if_pos hc]
    rw [List.isEmpty_iff.mp hc] at hscored
    simp only [scoreCandidates] at hscored
    injection hscored with hscored
    rw [← hscored]
    rw [show normalizeScores (stableSortDesc ([] : List ScoredCandidate)) = []
      from rfl, List.take_nil]
  · rw [if_neg hc]
    simp only [hscored]

lemma prefix_filter (p : ScoredCandidate → Bool)
    {l₁ l₂ : List ScoredCandidate} (h : l₁ <+: l₂) :
    l₁.filter p <+: l₂.filter p := by
  obtain ⟨t, rfl⟩ := h
  exact ⟨t.filter p, (List.filter_append _ _).symm⟩

lemma prefix_map (f : ScoredCandidate → String)
    {l₁ l₂ : List ScoredCandidate} (h : l₁ <+: l₂) :
    l₁.map f <+: l₂.map f := by
  obtain ⟨t, rfl⟩ := h
  exact ⟨t.map f, (List.map_append f _ _).symm⟩

lemma filterScore_normalize_map {l : List ScoredCandidate} {v : ℚ} :
    (filterScore v (normalizeScores l)).map (fun c => c.drug_id) =
      (filterScore v l).map (fun c => c.drug_id) := by
  cases l with
  | nil => rfl
  | cons x xs =>
    obtain ⟨f, hmap, hf⟩ := normalizeScores_eq_map (x :: xs) (by simp)
    rw [hmap]
    unfold filterScore
    rw [List.filter_map]
    have hpf : ((fun c : ScoredCandidate => decide (c.score = v)) ∘ f) =
        fun c => decide (c.score = v) := by
      funext c
      simp [(hf c).1]
    rw [hpf, List.map_map]
    have hdf : ((fun c : ScoredCandidate => c.drug_id) ∘ f) =
        fun c => c.drug_id := funext fun c => (hf c).2
    rw [hdf]

/-- C1: on a resolved disease query with successfully scored candidates,
`rank_for_disease` returns the top-`k` prefix of the normalized, sorted
candidate list: its length is at most `k`, it is sorted by composite score
in descending order, and candidates with equal scores keep their
candidate-set order (the per-score sublist of the output is a prefix of the
per-score sublist of the scoring-order list). -/
theorem rank_sorted_stable (env : Env) (q : String) (k : Nat) (dis : Disease)
    (scored : List ScoredCandidate)
    (hdis : fuzzyMatchDisease env q = some dis)
    (hscored : scoreCandidates env (buildGraph env) dis
        (candidateDrugs env dis.disease_id) = Except.ok scored) :
    rankForDisease env q k =
      Except.ok ((normalizeScores (stableSortDesc scored)).take k) ∧
    ((normalizeScores (stableSortDesc scored)).take k).length ≤ k ∧
    SortedDesc ((normalizeScores (stableSortDesc scored)).take k) ∧
    ∀ v : ℚ,
      (filterScore v ((normalizeScores (stableSortDesc scored)).take k)).map
          (fun c => c.drug_id) <+:
        (filterScore v scored).map (fun c => c.drug_id) := by
  refine ⟨rank_eq_of_scored hdis hscored, List.length_take_le k _, ?_, ?_⟩
  · exact List.Pairwise.sublist (List.take_sublist k _)
      (normalizeScores_sorted (stableSortDesc_sorted scored))
  · intro v
    have hpre : (normalizeScores (stableSortDesc scored)).take k <+:
        normalizeScores (stableSortDesc scored) := List.take_prefix k _
    have h2 := prefix_filter (fun c => decide (c.score = v)) hpre
    have h3 := prefix_map (fun c => c.drug_id) h2
    have heq : (filterScore v (normalizeScores (stableSortDesc scored))).map
        (fun c => c.drug_id) =
        (filterScore v scored).map (fun c => c.drug_id) := by
      rw [filterScore_normalize_map, stableSortDesc_filterScore]
    rw [← heq]
    exact h3

/-- C1 witness: two tied candidates keep their candidate-set order. -/
theorem rank_sorted_stable_witness :
    rankForDisease envC1 "flu" 10 =
      Except.ok ((normalizeScores (stableSortDesc scoredC1)).take 10) ∧
    ((normalizeScores (stableSortDesc scoredC1)).take 10).length ≤ 10 ∧
    SortedDesc ((normalizeScores (stableSortDesc scoredC1)).take 10) ∧
    ∀ v : ℚ,
      (filterScore v ((normalizeScores (stableSortDesc scoredC1)).take 10)).map
          (fun c => c.drug_id) <+:
        (filterScore v scoredC1).map (fun c => c.drug_id) :=
  rank_sorted_stable envC1 "flu" 10 disC1 scoredC1
    (by with_unfolding_all rfl) (by with_unfolding_all rfl)

/-- C2: on a non-empty candidate set the composite score is min-max
normalized across the entire candidate set before the top-`k` truncation:
there are a maximum and a minimum candidate score, every entry of the
(untruncated) normalized list carries `normalized_score =
(score - min)/(max - min)` when the range is positive and `1.0` otherwise,
every such value lies in `[0, 1]`, and when the maximum equals the minimum
every `normalized_score` is exactly `1.0`. -/
theorem minmax_normalization (env : Env) (q : String) (k : Nat)
    (dis : Disease) (scored : List ScoredCandidate)
    (hdis : fuzzyMatchDisease env q = some dis)
    (hscored : scoreCandidates env (buildGraph env) dis
        (candidateDrugs env dis.disease_id) = Except.ok scored)
    (hne : scored ≠ []) :
    ∃ maxS minS : ℚ,
      (∃ c ∈ scored, c.score = maxS) ∧
      (∃ c ∈ scored, c.score = minS) ∧
      (∀ c ∈ scored, minS ≤ c.score ∧ c.score ≤ maxS) ∧
      (∀ c ∈ normalizeScores (stableSortDesc scored),
        c.normalized_score = some
          (if 0 < maxS - minS then (c.score - minS) / (maxS - minS) else 1) ∧
        ∃ ns, c.normalized_score = some ns ∧ 0 ≤ ns ∧ ns ≤ 1) ∧
      (maxS = minS →
        ∀ c ∈ normalizeScores (stableSortDesc scored),
          c.normalized_score = some 1) ∧
      rankForDisease env q k =
        Except.ok ((normalizeScores (stableSortDesc scored)).take k) := by
  have hsorted : SortedDesc (stableSortDesc scored) := stableSortDesc_sorted scored
  have hnes : stableSortDesc scored ≠ [] := by
    intro hcon
    cases scored with
    | nil => exact hne rfl
    | cons z zs =>
      have hz : z ∈ stableSortDesc (z :: zs) :=
        mem_stableSortDesc.mpr (List.mem_cons_self z zs)
      rw [hcon] at hz
      cases hz
  obtain ⟨x, xs, hs⟩ : ∃ x xs, stableSortDesc scored = x :: xs := by
    cases h : stableSortDesc scored with
    | nil => exact absurd h hnes
    | cons a l => exact ⟨a, l, rfl⟩
  have hsort' : SortedDesc (x :: xs) := hs ▸ hsorted
  refine ⟨x.score, (xs.getLastD x).score, ?_, ?_, ?_, ?_, ?_,
    rank_eq_of_scored hdis hscored⟩
  · refine ⟨x, ?_, rfl⟩
    have hx : x ∈ stableSortDesc scored := by
      rw [hs]
      exact List.mem_cons_self x xs
    exact mem_stableSortDesc.mp hx
  · refine ⟨xs.getLastD x, ?_, rfl⟩
    have hx : xs.getLastD x ∈ stableSortDesc scored := by
      rw [hs]
      exact getLastD_mem xs x
    exact mem_stableSortDesc.mp hx
  · intro c hc
    have hc' : c ∈ x :: xs := by
      rw [← hs]
      exact mem_stableSortDesc.mpr hc
    exact ⟨lastD_le_of_sorted hsort' c hc', sorted_head_ge hsort' c hc'⟩
  · rw [hs]
    exact normalizeScores_spec hsort'
  · intro hmaxmin
    rw [hs]
    intro c hc
    have hspec := (normalizeScores_spec hsort' c hc).1
    have hcond : ¬(0 < x.score - (xs.getLastD x).score) := by
      rw [hmaxmin]
      simp
    rw [hspec, if_neg hcond]

/-- C2 witness: a single candidate is the degenerate all-equal case, with
`normalized_score = 1.0`. -/
theorem minmax_normalization_witness :
    ∃ maxS minS : ℚ,
      (∃ c ∈ scoredC2, c.score = maxS) ∧
      (∃ c ∈ scoredC2, c.score = minS) ∧
      (∀ c ∈ scoredC2, minS ≤ c.score ∧ c.score ≤ maxS) ∧
      (∀ c ∈ normalizeScores (stableSortDesc scoredC2),
        c.normalized_score = some
          (if 0 < maxS - minS then (c.score - minS) / (maxS - minS) else 1) ∧
        ∃ ns, c.normalized_score = some ns ∧ 0 ≤ ns ∧ ns ≤ 1) ∧
      (maxS = minS →
        ∀ c ∈ normalizeScores (stableSortDesc scoredC2),
          c.normalized_score = some 1) ∧
      rankForDisease envC2 "flu" 10 =
        Except.ok ((normalizeScores (stableSortDesc scoredC2)).take 10) :=
  minmax_normalization envC2 "flu" 10 disC2 scoredC2
    (by with_unfolding_all rfl) (by with_unfolding_all rfl)
    (by simp [scoredC2])

/-! ## Claim C8 (propagation never overwrites or duplicates edges) -/

lemma edgeMatches_comm (e : Edge) (u v : NodeId) :
    edgeMatches e u v = edgeMatches e v u := by
  unfold edgeMatches
  refine Bool.eq_iff_iff.mpr ?_
  simp only [decide_eq_true_eq]
  tauto

lemma edgesBetween_comm (g : Graph) (u v : NodeId) :
    edgesBetween g u v = edgesBetween g v u := by
  unfold edgesBetween
  exact List.filter_congr fun e _ => edgeMatches_comm e u v

lemma addNode_edges (g : Graph) (u : NodeId) :
    (g.addNode u).edges = g.edges := by
  unfold Graph.addNode
  split <;> rfl

lemma edgesBetween_addNode (g : Graph) (u x y : NodeId) :
    edgesBetween (g.addNode u) x y = edgesBetween g x y := by
  unfold edgesBetween
  rw [addNode_edges]

lemma addEdge_not_hasEdge {g : Graph} {u v : NodeId} {d : EdgeData}
    (h : g.hasEdge u v = false) :
    (g.addEdge u v d).edges = g.edges ++ [(u, v, d)] := by
  have he : ((g.addNode u).addNode v).edges = g.edges := by
    rw [addNode_edges, addNode_edges]
  have hh : ¬(((g.addNode u).addNode v).hasEdge u v = true) := by
    unfold Graph.hasEdge at h ⊢
    rw [he]
    simp [h]
  simp only [Graph.addEdge]
  rw [if_neg hh]
  simp [he]

lemma addEdge_hasEdge_edges {g : Graph} {u v : NodeId} {d : EdgeData}
    (h : g.hasEdge u v = true) :
    (g.addEdge u v d).edges =
      g.edges.map (fun e => if edgeMatches e u v then (e.1, e.2.1, d) else e) := by
  have he : ((g.addNode u).addNode v).edges = g.edges := by
    rw [addNode_edges, addNode_edges]
  have hh : ((g.addNode u).addNode v).hasEdge u v = true := by
    unfold Graph.hasEdge at h ⊢
    rw [he]
    exact h
  simp only [Graph.addEdge]
  rw [if_pos hh]
  simp [he]

lemma filter_map_endpoints (g : Graph) (u v x y : NodeId) (d : EdgeData) :
    (g.edges.map fun e => if edgeMatches e u v then (e.1, e.2.1, d) else e).filter
        (fun e => edgeMatches e x y) =
      (g.edges.filter (fun e => edgeMatches e x y)).map
        (fun e => if edgeMatches e u v then (e.1, e.2.1, d) else e) := by
  rw [List.filter_map]
  congr 1
  apply List.filter_congr
  intro e _
  show edgeMatches (if edgeMatches e u v then (e.1, e.2.1, d) else e) x y =
    edgeMatches e x y
  split
  · rfl
  · rfl

lemma bool_eq_false_of_ne_true {b : Bool} (h : ¬b = true) : b = false := by
  revert h
  cases b <;> simp

lemma addEdge_atMostOne {g : Graph} {u v : NodeId} {d : EdgeData}
    (h : ∀ x y, (edgesBetween g x y).length ≤ 1) :
    ∀ x y, (edgesBetween (g.addEdge u v d) x y).length ≤ 1 := by
  intro x y
  by_cases hc : g.hasEdge u v = true
  · unfold edgesBetween
    rw [addEdge_hasEdge_edges hc, filter_map_endpoints, List.length_map]
    exact h x y
  · have hft : g.hasEdge u v = false := bool_eq_false_of_ne_true hc
    unfold edgesBetween
    rw [addEdge_not_hasEdge hft, List.filter_append]
    by_cases hm : edgeMatches (u, v, d) x y = true
    · have hmm : (u = x ∧ v = y) ∨ (u = y ∧ v = x) := by
        have h2 := hm
        unfold edgeMatches at h2
        simpa using h2
      have hnil : edgesBetween g u v = [] := hasEdge_false_iff.mp hft
      have h0 : g.edges.filter (fun e => edgeMatches e x y) = [] := by
        rcases hmm with ⟨rfl, rfl⟩ | ⟨rfl, rfl⟩
        · exact hnil
        · exact (edgesBetween_comm g v u).trans hnil
      rw [h0]
      simp [hm]
    · have hm' := bool_eq_false_of_ne_true hm
      simp only [List.filter_cons, hm', List.filter_nil]
      simpa using h x y

lemma addPropagatedEdge_atMostOne {dn : NodeId} {g : Graph}
    {p : NodeId × NodeId}
    (h : ∀ x y, (edgesBetween g x y).length ≤ 1) :
    ∀ x y, (edgesBetween (addPropagatedEdge dn g p) x y).length ≤ 1 := by
  unfold addPropagatedEdge
  split
  · exact h
  · exact addEdge_atMostOne h

lemma addPropagatedEdge_persist {dn : NodeId} {g : Graph}
    {p : NodeId × NodeId} {x y : NodeId} {e : Edge}
    (h : edgesBetween g x y = [e]) :
    edgesBetween (addPropagatedEdge dn g p) x y = [e] := by
  unfold addPropagatedEdge
  split
  · exact h
  next hf =>
    have hft : g.hasEdge p.1 p.2 = false := bool_eq_false_of_ne_true hf
    unfold edgesBetween at h ⊢
    rw [addEdge_not_hasEdge hft, List.filter_append]
    by_cases hm : edgeMatches (p.1, p.2, propEdgeData dn) x y = true
    · exfalso
      have hmm : (p.1 = x ∧ p.2 = y) ∨ (p.1 = y ∧ p.2 = x) := by
        have h2 := hm
        unfold edgeMatches at h2
        simpa using h2
      have hnil : edgesBetween g p.1 p.2 = [] := hasEdge_false_iff.mp hft
      rcases hmm with ⟨h1, h2⟩ | ⟨h1, h2⟩
      · rw [← h1, ← h2] at h
        rw [show (g.edges.filter fun e => edgeMatches e p.1 p.2) = [] from hnil]
          at h
        exact List.noConfusion h
      · rw [← h1, ← h2] at h
        have h3 : edgesBetween g p.2 p.1 = [e] := h
        rw [edgesBetween_comm g p.2 p.1, hnil] at h3
        exact List.noConfusion h3
    · have hm' := bool_eq_false_of_ne_true hm
      simp only [List.filter_cons, hm', List.filter_nil]
      simpa using h

lemma addPropagatedEdge_shape {dn : NodeId} {g : Graph} {p : NodeId × NodeId}
    {T S : Edge → Prop}
    (hS : S (p.1, p.2, propEdgeData dn))
    (h : ∀ e ∈ g.edges, T e ∨ S e) :
    ∀ e ∈ (addPropagatedEdge dn g p).edges, T e ∨ S e := by
  unfold addPropagatedEdge
  split
  · exact h
  next hf =>
    have hft : g.hasEdge p.1 p.2 = false := bool_eq_false_of_ne_true hf
    intro e he
    rw [addEdge_not_hasEdge hft] at he
    rcases List.mem_append.mp he with he | he
    · exact h e he
    · simp only [List.mem_singleton] at he
      subst he
      exact Or.inr hS

lemma foldl_pres {α β : Type} (P : β → Prop) (step : β → α → β)
    (hstep : ∀ b a, P b → P (step b a)) :
    ∀ (l : List α) (b : β), P b → P (l.foldl step b) := by
  intro l
  induction l with
  | nil => intro b h; exact h
  | cons a t ih =>
    intro b h
    rw [List.foldl_cons]
    exact ih _ (hstep b a h)

lemma foldl_pres_mem {α β : Type} (P : β → Prop) (step : β → α → β) :
    ∀ l : List α, (∀ b a, a ∈ l → P b → P (step b a)) →
      ∀ b : β, P b → P (l.foldl step b) := by
  intro l
  induction l with
  | nil => intro _ b h; exact h
  | cons a t ih =>
    intro hstep b h
    rw [List.foldl_cons]
    exact ih (fun b2 c hc hb => hstep b2 c (List.mem_cons_of_mem a hc) hb) _
      (hstep b a (List.mem_cons_self a t) h)

lemma propagateForDrug_pres (P : Graph → Prop)
    (hstep : ∀ dn g p, P g → P (addPropagatedEdge dn g p)) :
    ∀ (g : Graph) (dn : NodeId), P g → P (propagateForDrug g dn) := by
  intro g dn h
  unfold propagateForDrug
  exact foldl_pres P (addPropagatedEdge dn) (fun g2 p hp => hstep dn g2 p hp)
    (propagationPairs g dn) g h

lemma pairs_shape {g : Graph} {dn : NodeId} {p : NodeId × NodeId}
    (hp : p ∈ propagationPairs g dn) :
    (∃ i, p.1 = NodeId.dis i) ∧ ∃ s, p.2 = NodeId.gene s := by
  simp only [propagationPairs] at hp
  obtain ⟨a, ha, hp2⟩ := List.mem_flatMap.mp hp
  obtain ⟨ge, hge, rfl⟩ := List.mem_map.mp hp2
  have ha2 := (List.mem_filter.mp ha).2
  have hge2 := (List.mem_filter.mp hge).2
  constructor
  · cases a with
    | dis i => exact ⟨i, rfl⟩
    | drug i => simp at ha2
    | gene s => simp at ha2
  · cases ge with
    | gene s => exact ⟨s, rfl⟩
    | drug i => simp at hge2
    | dis i => simp at hge2

lemma propagateForDrug_shape {dns : List NodeId} {g0 g : Graph}
    {dn : NodeId} (hdn : dn ∈ dns)
    (h : ∀ e ∈ g.edges, e ∈ g0.edges ∨ PropagatedShape dns e) :
    ∀ e ∈ (propagateForDrug g dn).edges,
      e ∈ g0.edges ∨ PropagatedShape dns e := by
  unfold propagateForDrug
  refine foldl_pres_mem
    (fun g2 => ∀ e ∈ g2.edges, e ∈ g0.edges ∨ PropagatedShape dns e)
    (addPropagatedEdge dn) (propagationPairs g dn) ?_ g h
  intro g2 p hp hg2
  refine addPropagatedEdge_shape ?_ hg2
  obtain ⟨⟨i, hi⟩, ⟨s, hs⟩⟩ := pairs_shape hp
  exact ⟨rfl, rfl, ⟨i, hi⟩, ⟨s, hs⟩, dn, hdn, rfl⟩

lemma preGraph_atMostOne (env : Env) :
    ∀ x y, (edgesBetween (preGraph env) x y).length ≤ 1 := by
  have hstep_node : ∀ (g : Graph) (u : NodeId),
      (∀ x y, (edgesBetween g x y).length ≤ 1) →
      ∀ x y, (edgesBetween (g.addNode u) x y).length ≤ 1 := by
    intro g u h x y
    rw [edgesBetween_addNode]
    exact h x y
  have hempty : ∀ x y, (edgesBetween Graph.empty x y).length ≤ 1 := by
    intro x y
    simp [edgesBetween, Graph.empty]
  unfold preGraph addDrugGeneEdges addDrugDiseaseEdges addGeneNodes
    addDiseaseNodes addDrugNodes
  refine foldl_pres (fun g => ∀ x y, (edgesBetween g x y).length ≤ 1) _ ?_ _ _
    (foldl_pres (fun g => ∀ x y, (edgesBetween g x y).length ≤ 1) _ ?_ _ _
      (foldl_pres (fun g => ∀ x y, (edgesBetween g x y).length ≤ 1) _ ?_ _ _
        (foldl_pres (fun g => ∀ x y, (edgesBetween g x y).length ≤ 1) _ ?_ _ _
          (foldl_pres (fun g => ∀ x y, (edgesBetween g x y).length ≤ 1) _ ?_
            _ _ hempty))))
  · intro g r h x y
    dsimp only
    split
    · exact addEdge_atMostOne h x y
    · exact h x y
  · intro g r h x y
    dsimp only
    split
    · exact addEdge_atMostOne h x y
    · exact h x y
  · intro g s h
    exact hstep_node g _ h
  · intro g d h
    exact hstep_node g _ h
  · intro g d h
    exact hstep_node g _ h

/-- C8: after the whole propagation step, every node pair is connected by
at most one stored edge; every edge present before propagation survives
unchanged (no overwriting — in particular the first mediating drug wins);
and every edge the propagation adds is a fresh `disease_gene_propagated`
edge of weight 0.5 between a disease node and a gene node, annotated with a
mediating drug node. -/
theorem propagation_no_overwrite (env : Env) :
    (∀ x y, (edgesBetween (buildGraph env) x y).length ≤ 1) ∧
    (∀ x y e, edgesBetween (preGraph env) x y = [e] →
      edgesBetween (buildGraph env) x y = [e]) ∧
    (∀ e ∈ (buildGraph env).edges, e ∈ (preGraph env).edges ∨
      PropagatedShape (drugNodesOf env) e) := by
  refine ⟨?_, ?_, ?_⟩
  · unfold buildGraph propagateDiseaseGene
    refine foldl_pres (fun g => ∀ x y, (edgesBetween g x y).length ≤ 1)
      propagateForDrug ?_ _ _ (preGraph_atMostOne env)
    intro g dn hg
    exact propagateForDrug_pres
      (fun g2 => ∀ x y, (edgesBetween g2 x y).length ≤ 1)
      (fun dn g2 p hp => addPropagatedEdge_atMostOne hp) g dn hg
  · intro x y e he
    unfold buildGraph propagateDiseaseGene
    refine foldl_pres (fun g => edgesBetween g x y = [e])
      propagateForDrug ?_ _ _ he
    intro g dn hg
    exact propagateForDrug_pres (fun g2 => edgesBetween g2 x y = [e])
      (fun dn g2 p hp => addPropagatedEdge_persist hp) g dn hg
  · unfold buildGraph propagateDiseaseGene
    refine foldl_pres_mem
      (fun g => ∀ e ∈ g.edges, e ∈ (preGraph env).edges ∨
        PropagatedShape (drugNodesOf env) e)
      propagateForDrug (drugNodesOf env) ?_ _ ?_
    · intro g dn hdn hg
      exact propagateForDrug_shape hdn hg
    · intro e he
      exact Or.inl he

/-- C8 witness: the pre-existing drug–disease edge of `envC8` survives the
propagation step unchanged. -/
theorem propagation_no_overwrite_witness :
    edgesBetween (buildGraph envC8) (NodeId.drug "d1") (NodeId.dis "x1") =
      [edgeC8] :=
  (propagation_no_overwrite envC8).2.1 (NodeId.drug "d1") (NodeId.dis "x1")
    edgeC8 (by with_unfolding_all rfl)

end Recure
